import Mathlib

/-!
Shallow embedding of the CubeFS master node-selector family
(`master/node_selector.go`): the four placement policies RoundRobin,
AvailableSpaceFirst, CarryWeight and Straw, together with the node data
model they consume.  Go machine integers are modelled as `Nat` (with an
explicit wrap where Go `uint64` subtraction occurs) and `float64` scores
as `ℚ`.  The `sync.Map` node stores are modelled as lists whose order is
the (unspecified) iteration order of the source.
-/

/-- NodeResourceType from the source: discriminates data-disk nodes from
meta nodes in memory or rocksdb mode. -/
inductive NodeResourceType
  | DataNodeDisk
  | MetaNodeMemory
  | MetaNodeRocksdb
  deriving DecidableEq, Repr

/-- Per-node state consumed by the selectors.  `ID`, `Addr` and the
capacity counters mirror the `DataNode`/`MetaNode` fields read in
`node_selector.go`; the two node kinds are merged into one record since
the selectors access them only through the resource-type switches below.
The writability predicates `canAlloc`, `canAllocDp` and `isWritable`
live outside the embedded file, so their results are carried as abstract
booleans.  `GetRocksdbTotal`/`GetRocksdbUsed` are likewise carried as
the fields `RocksdbTotal`/`RocksdbUsed`. -/
structure NodeData where
  ID : Nat
  Addr : String
  AvailableSpace : Nat
  Total : Nat
  Used : Nat
  RocksdbTotal : Nat
  RocksdbUsed : Nat
  canAllocRes : Bool
  canAllocDpRes : Bool
  isWritableMemRes : Bool
  isWritableRocksRes : Bool
  deriving DecidableEq, Repr

/-- proto.Peer as returned by every selector. -/
structure Peer where
  ID : Nat
  Addr : String
  deriving DecidableEq, Repr

/-- The error outcomes of a Select call, keyed by the source's message
strings: "no enough hosts" (AvailableSpaceFirst size check), "no enough
writable hosts", and the wrap of a reshuffleHosts failure. -/
inductive SelectErr
  | noEnoughHosts
  | noEnoughWritableHosts
  | reshuffleFailed
  deriving DecidableEq, Repr

/-- Result of one Select call.  `charged` records the `GetID()` of every
node whose `SelectNodeForWrite` hook was invoked, in invocation order. -/
structure SelectOut where
  newHosts : List String
  peers : List Peer
  err : Option SelectErr
  charged : List Nat
  deriving DecidableEq, Repr

/-- nodeSet restricted to what the selectors read: the data-node store and
the meta-node store, in iteration order. -/
structure nodeSet where
  dataNodes : List NodeData
  metaNodes : List NodeData
  deriving DecidableEq, Repr

/-- nodeSet.getNodes from the source. -/
def nodeSet.getNodes (ns : nodeSet) (t : NodeResourceType) : List NodeData :=
  match t with
  | .DataNodeDisk => ns.dataNodes
  | .MetaNodeMemory | .MetaNodeRocksdb => ns.metaNodes

/-- Wrap of Go `uint64` subtraction: for `a b < 2 ^ 64` this is
`(a - b) mod 2 ^ 64`. -/
def u64sub (a b : Nat) : Nat :=
  (a + (18446744073709551616 - b % 18446744073709551616)) % 18446744073709551616

/-- Modelled from the spec: the helper `contains` is not under src; it is
the membership test of an address in the excluded-host list. -/
def contains (arr : List String) (element : String) : Bool :=
  arr.contains element

/-- Modelled from the spec: `reshuffleHosts` is not under src.  Per the
spec it fails only if its input is empty and otherwise returns a
permutation of its input.  The random permutation is abstracted as the
parameter `shuffle`; the theorems constrain it to be a permutation. -/
def reshuffleHosts (shuffle : List String → List String)
    (oldHosts : List String) : Option (List String) :=
  if oldHosts.isEmpty then none else some (shuffle oldHosts)

/-- canAllocPartition from the source: the per-resource-type writability
switch. -/
def canAllocPartition (node : NodeData) (nodeType : NodeResourceType) : Bool :=
  match nodeType with
  | .DataNodeDisk => node.canAllocRes && node.canAllocDpRes
  | .MetaNodeMemory => node.isWritableMemRes
  | .MetaNodeRocksdb => node.isWritableRocksRes

/-- AvailableSpaceFirstNodeSelector.getNodeAvailableSpace from the source
(also the capacity metric of the Straw selector's getWeight). -/
def getNodeAvailableSpace (nodeType : NodeResourceType) (node : NodeData) : Nat :=
  match nodeType with
  | .DataNodeDisk => node.AvailableSpace
  | .MetaNodeMemory => u64sub node.Total node.Used
  | .MetaNodeRocksdb => u64sub node.RocksdbTotal node.RocksdbUsed

/-- The acceptance test applied to each examined node in the scan loops of
`RoundRobinNodeSelector.Select` and `AvailableSpaceFirstNodeSelector.Select`:
`canAllocPartition(node, nodeType)` and then `excludeHosts == nil ||
!contains(excludeHosts, addr)` (with `nil` as the empty list the two
exclusion forms agree, since `contains` of an empty list is false). -/
def acceptNode (t : NodeResourceType) (excludeHosts : List String)
    (n : NodeData) : Bool :=
  canAllocPartition n t && !(contains excludeHosts n.Addr)

/-- The host-picking scan shared by `RoundRobinNodeSelector.Select` and
`AvailableSpaceFirstNodeSelector.Select` (their `for i ... for nodeIndex`
double loops are textually identical up to the rotated indexing, which is
factored into the list passed in): walk the prepared node order, skip
nodes that fail `canAllocPartition` or sit in `excludeHosts`, accept
until `replicaNum` nodes are accepted or the list is exhausted.  Returns
the accepted nodes in order and the number of nodes examined (the
source's final `nodeIndex`). -/
def selectorScan (t : NodeResourceType) (excludeHosts : List String) :
    List NodeData → Nat → List NodeData × Nat
  | _, 0 => ([], 0)
  | [], _ + 1 => ([], 0)
  | n :: rest, rn + 1 =>
    if acceptNode t excludeHosts n then
      let r := selectorScan t excludeHosts rest rn
      (n :: r.1, r.2 + 1)
    else
      let r := selectorScan t excludeHosts rest (rn + 1)
      (r.1, r.2 + 1)

/-- The node snapshot of `AvailableSpaceFirstNodeSelector.Select`, sorted
descending by available space (the source's `sort.Slice` with less
`space i > space j` is an unstable comparison sort; any sort for the
corresponding non-strict order is a faithful model, and the embedding
uses insertion sort so that concrete calls compute). -/
def asfSortedNodes (t : NodeResourceType) (ns : nodeSet) : List NodeData :=
  (ns.getNodes t).insertionSort
    (fun a b => getNodeAvailableSpace t b ≤ getNodeAvailableSpace t a)

/-- AvailableSpaceFirstNodeSelector.Select from the source. -/
def AvailableSpaceFirstSelect (t : NodeResourceType) (ns : nodeSet)
    (excludeHosts : List String) (replicaNum : Nat)
    (shuffle : List String → List String) : SelectOut :=
  if replicaNum = 0 then ⟨[], [], none, []⟩
  else
    let nodes0 := ns.getNodes t
    if nodes0.length < replicaNum then ⟨[], [], some .noEnoughHosts, []⟩
    else
      let sortedNodes := asfSortedNodes t ns
      let picked := (selectorScan t excludeHosts sortedNodes replicaNum).1
      let orderHosts := picked.map (·.Addr)
      let peers := picked.map (fun n => Peer.mk n.ID n.Addr)
      let charged := picked.map (·.ID)
      if orderHosts.length < replicaNum then
        ⟨[], peers, some .noEnoughWritableHosts, charged⟩
      else
        match reshuffleHosts shuffle orderHosts with
        | none => ⟨[], peers, some .reshuffleFailed, charged⟩
        | some nh => ⟨nh, peers, none, charged⟩

/-- The id-ascending node snapshot of `RoundRobinNodeSelector.Select`
(the source's `sort.Slice` with less `ID i < ID j`). -/
def rrSortedNodes (t : NodeResourceType) (ns : nodeSet) : List NodeData :=
  (ns.getNodes t).insertionSort (fun a b => a.ID ≤ b.ID)

/-- The rotated view scanned by `RoundRobinNodeSelector.Select`: element
`j` of this list is the source's `sortedNodes[(j + s.index) % len]`. -/
def rrRotated (t : NodeResourceType) (index : Nat) (ns : nodeSet) : List NodeData :=
  let l := rrSortedNodes t ns
  l.drop (index % l.length) ++ l.take (index % l.length)

/-- RoundRobinNodeSelector.Select from the source; the second component is
the new cursor (`s.index` after the call). -/
def RoundRobinSelect (t : NodeResourceType) (index : Nat) (ns : nodeSet)
    (excludeHosts : List String) (replicaNum : Nat)
    (shuffle : List String → List String) : SelectOut × Nat :=
  if replicaNum = 0 then (⟨[], [], none, []⟩, index)
  else
    let nodes0 := ns.getNodes t
    if nodes0.length < replicaNum then
      (⟨[], [], some .noEnoughWritableHosts, []⟩, index)
    else
      let scan := selectorScan t excludeHosts (rrRotated t index ns) replicaNum
      let picked := scan.1
      let orderHosts := picked.map (·.Addr)
      let peers := picked.map (fun n => Peer.mk n.ID n.Addr)
      let charged := picked.map (·.ID)
      if orderHosts.length < replicaNum then
        (⟨[], peers, some .noEnoughWritableHosts, charged⟩, index)
      else
        let index2 := index + scan.2
        match reshuffleHosts shuffle orderHosts with
        | none => (⟨[], peers, some .reshuffleFailed, charged⟩, index2)
        | some nh => (⟨nh, peers, none, charged⟩, index2)

/-- The CarryWeight selector's persistent carry store: an association
list modelling the Go map `carry map[uint64]float64`. -/
abbrev CarryMap := List (Nat × ℚ)

/-- Go map read (reads of a missing key yield the zero value `0`). -/
def carryLookup (m : CarryMap) (id : Nat) : ℚ :=
  match m.find? (fun p => p.1 == id) with
  | some p => p.2
  | none => 0

/-- Go map membership test (`_, ok := s.carry[id]`). -/
def carryMem (m : CarryMap) (id : Nat) : Bool :=
  m.any (fun p => p.1 == id)

/-- Go map write: overwrite the existing entry or append a new one. -/
def carryUpdate : CarryMap → Nat → ℚ → CarryMap
  | [], id, v => [(id, v)]
  | p :: rest, id, v =>
    if p.1 = id then (id, v) :: rest else p :: carryUpdate rest id v

/-- weightedNode from the source (its `ID` field is never assigned there
and is dropped; the selectors read the id through `Ptr`). -/
structure weightedNode where
  Carry : ℚ
  Weight : ℚ
  Ptr : NodeData
  deriving DecidableEq, Repr

/-- The per-resource-type total-capacity metric read by the
`CarryWeightNodeSelector.getTotalMaxFor*` helpers. -/
def carryTotalOf (t : NodeResourceType) (n : NodeData) : Nat :=
  match t with
  | .DataNodeDisk => n.Total
  | .MetaNodeMemory => n.Total
  | .MetaNodeRocksdb => n.RocksdbTotal

/-- CarryWeightNodeSelector.getTotalMax from the source: the maximum of
the per-node totals, folded in iteration order. -/
def getTotalMax (t : NodeResourceType) (nodes : List NodeData) : Nat :=
  nodes.foldl (fun total n =>
    if carryTotalOf t n > total then carryTotalOf t n else total) 0

/-- CarryWeightNodeSelector.prepareCarry from the source: lazily seed
`carry[id] = freeCapacity / total` for nodes not yet in the map (the
free-capacity numerators coincide with `getNodeAvailableSpace`). -/
def prepareCarry (t : NodeResourceType) (nodes : List NodeData)
    (total : Nat) (m : CarryMap) : CarryMap :=
  nodes.foldl (fun m n =>
    if carryMem m n.ID then m
    else carryUpdate m n.ID ((getNodeAvailableSpace t n : ℚ) / (total : ℚ))) m

/-- CarryWeightNodeSelector.getCarryDataNodes from the source: build the
weighted-node list over non-excluded, writable data nodes, counting the
entries whose carry is `≥ 1.0`. -/
def getCarryDataNodes (m : CarryMap) (maxTotal : Nat) (excludeHosts : List String) :
    List NodeData → List weightedNode × Nat
  | [] => ([], 0)
  | dn :: rest =>
    if contains excludeHosts dn.Addr then
      getCarryDataNodes m maxTotal excludeHosts rest
    else if !dn.canAllocDpRes then
      getCarryDataNodes m maxTotal excludeHosts rest
    else if !dn.canAllocRes then
      getCarryDataNodes m maxTotal excludeHosts rest
    else
      let r := getCarryDataNodes m maxTotal excludeHosts rest
      (⟨carryLookup m dn.ID, (dn.AvailableSpace : ℚ) / (maxTotal : ℚ), dn⟩ :: r.1,
       if 1 ≤ carryLookup m dn.ID then r.2 + 1 else r.2)

/-- CarryWeightNodeSelector.getCarryMetaNodes from the source.  Note the
weight numerator is `Total - Used` even in rocksdb mode (the source reads
`metaNode.Total - metaNode.Used` for both store modes). -/
def getCarryMetaNodes (t : NodeResourceType) (m : CarryMap) (maxTotal : Nat)
    (excludeHosts : List String) : List NodeData → List weightedNode × Nat
  | [] => ([], 0)
  | mn :: rest =>
    if contains excludeHosts mn.Addr then
      getCarryMetaNodes t m maxTotal excludeHosts rest
    else if !(if t = .MetaNodeRocksdb then mn.isWritableRocksRes else mn.isWritableMemRes) then
      getCarryMetaNodes t m maxTotal excludeHosts rest
    else
      let r := getCarryMetaNodes t m maxTotal excludeHosts rest
      (⟨carryLookup m mn.ID, (u64sub mn.Total mn.Used : ℚ) / (maxTotal : ℚ), mn⟩ :: r.1,
       if 1 ≤ carryLookup m mn.ID then r.2 + 1 else r.2)

/-- CarryWeightNodeSelector.getCarryNodes from the source. -/
def getCarryNodes (t : NodeResourceType) (m : CarryMap) (maxTotal : Nat)
    (excludeHosts : List String) (nset : nodeSet) : List weightedNode × Nat :=
  match t with
  | .DataNodeDisk => getCarryDataNodes m maxTotal excludeHosts nset.dataNodes
  | .MetaNodeMemory | .MetaNodeRocksdb =>
    getCarryMetaNodes t m maxTotal excludeHosts nset.metaNodes

/-- One node's step of the advancement loop in
`CarryWeightNodeSelector.setNodeCarry`: `carry + weight`, capped at 10. -/
def advanceEntry (n : weightedNode) : weightedNode :=
  let carry := n.Carry + n.Weight
  { n with Carry := if carry > 10 then 10 else carry }

/-- One full pass of the `for _, nt := range nodes` loop in
`setNodeCarry`: advance every entry, write it back into the carry map,
and recount the entries whose new carry is strictly above 1.0. -/
def advanceAll (m : CarryMap) : List weightedNode → CarryMap × List weightedNode × Nat
  | [] => (m, [], 0)
  | n :: rest =>
    let n2 := advanceEntry n
    let m2 := carryUpdate m n.Ptr.ID n2.Carry
    let r := advanceAll m2 rest
    (r.1, n2 :: r.2.1, if n2.Carry > 1 then r.2.2 + 1 else r.2.2)

/-- CarryWeightNodeSelector.setNodeCarry from the source: repeat full
passes while `availCarryCount < replicaNum`.  The source's loop can fail
to terminate (for example when every weight is zero); the embedding makes
this explicit with `fuel`, returning `none` when `fuel` passes did not
reach the bound. -/
def setNodeCarry (fuel : Nat) (m : CarryMap) (nodes : List weightedNode)
    (availCarryCount replicaNum : Nat) : Option (CarryMap × List weightedNode) :=
  if availCarryCount < replicaNum then
    match fuel with
    | 0 => none
    | f + 1 =>
      let r := advanceAll m nodes
      setNodeCarry f r.1 r.2.1 r.2.2 replicaNum
  else some (m, nodes)

/-- The carry-descending sort of `CarryWeightNodeSelector.Select`
(`sort.Sort(SortedWeightedNodes)` with less `Carry i > Carry j`). -/
def sortCarry (nodes : List weightedNode) : List weightedNode :=
  nodes.insertionSort (fun a b => b.Carry ≤ a.Carry)

/-- CarryWeightNodeSelector.Select from the source.  Returns `none` when
the advancement loop exceeds `fuel` passes (a diverging run of the
source); otherwise the result together with the selector's new carry map.
`selectNodeForWrite` (hook invocation plus `carry[id] -= 1.0`) is inlined
in the pick loop as in the source. -/
def CarryWeightSelect (t : NodeResourceType) (m : CarryMap) (ns : nodeSet)
    (excludeHosts : List String) (replicaNum : Nat)
    (shuffle : List String → List String) (fuel : Nat) :
    Option (SelectOut × CarryMap) :=
  let nodes := ns.getNodes t
  let total := getTotalMax t nodes
  let m1 := prepareCarry t nodes total m
  if replicaNum = 0 then some (⟨[], [], none, []⟩, m1)
  else
    let wc := getCarryNodes t m1 total excludeHosts ns
    if wc.1.length < replicaNum then
      some (⟨[], [], some .noEnoughWritableHosts, []⟩, m1)
    else
      match setNodeCarry fuel m1 wc.1 wc.2 replicaNum with
      | none => none
      | some (m2, nodes2) =>
        let picked := (sortCarry nodes2).take replicaNum
        let m3 := picked.foldl
          (fun m wn => carryUpdate m wn.Ptr.ID (carryLookup m wn.Ptr.ID - 1)) m2
        let orderHosts := picked.map (·.Ptr.Addr)
        let peers := picked.map (fun wn => Peer.mk wn.Ptr.ID wn.Ptr.Addr)
        let charged := picked.map (·.Ptr.ID)
        match reshuffleHosts shuffle orderHosts with
        | none => some (⟨[], peers, some .reshuffleFailed, charged⟩, m3)
        | some nh => some (⟨nh, peers, none, charged⟩, m3)

/-- The argmax scan of `StrawNodeSelector.selectOneNode`.  `straws i`
stands for the float value `math.Log(r/65536) / getWeight(nodes[i])`
drawn at position `i`; logarithms of random draws are not rational, so
the straw values are abstracted as an oracle and the theorems hold for
every oracle.  `index = -1` marks "no node seen yet" as in the source. -/
def selectOneNodeAux (straws : Nat → ℚ) (i : Nat) (maxStraw : ℚ) (index : Int) :
    List NodeData → ℚ × Int
  | [] => (maxStraw, index)
  | _ :: rest =>
    let straw := straws i
    if index = -1 ∨ straw > maxStraw then
      selectOneNodeAux straws (i + 1) straw (i : Int) rest
    else
      selectOneNodeAux straws (i + 1) maxStraw index rest

/-- StrawNodeSelector.selectOneNode from the source, returning the
winning index (−1 only on an empty candidate list); the winning node is
the list element at that index. -/
def selectOneNode (straws : Nat → ℚ) (nodes : List NodeData) : Int :=
  (selectOneNodeAux straws 0 0 (-1) nodes).2

/-- The `for len(orderHosts) < replicaNum` loop of
`StrawNodeSelector.Select`: pick the straw winner, swap-remove it from
the candidates, keep it if writable.  `straws round i` is the abstracted
straw of position `i` in round `round`; `picked` accumulates the accepted
nodes (the source's `orderHosts`/`peers`/charge appends are its images
under `map`).  The source's conditional swap of `nodes[0]` and
`nodes[index]` followed by `nodes = nodes[1:]` is `set index hd` then
`tail`, which also covers `index = 0`. -/
def strawLoop (t : NodeResourceType) (straws : Nat → Nat → ℚ) (round : Nat)
    (nodes : List NodeData) (picked : List NodeData) (replicaNum : Nat) :
    List NodeData :=
  if picked.length < replicaNum then
    if nodes.length + picked.length < replicaNum then picked
    else
      match nodes with
      | [] => picked
      | hd :: tl =>
        let i := (selectOneNode (straws round) (hd :: tl)).toNat
        let node := (hd :: tl).getD i hd
        let nodes2 := ((hd :: tl).set i hd).tail
        if canAllocPartition node t then
          strawLoop t straws (round + 1) nodes2 (picked ++ [node]) replicaNum
        else
          strawLoop t straws (round + 1) nodes2 picked replicaNum
  else picked
termination_by nodes.length
decreasing_by
  all_goals simp [List.length_tail, List.length_set]

/-- StrawNodeSelector.Select from the source. -/
def StrawSelect (t : NodeResourceType) (straws : Nat → Nat → ℚ) (ns : nodeSet)
    (excludeHosts : List String) (replicaNum : Nat)
    (shuffle : List String → List String) : SelectOut :=
  let nodes := (ns.getNodes t).filter (fun n => !(contains excludeHosts n.Addr))
  let picked := strawLoop t straws 0 nodes [] replicaNum
  let orderHosts := picked.map (·.Addr)
  let peers := picked.map (fun n => Peer.mk n.ID n.Addr)
  let charged := picked.map (·.ID)
  if orderHosts.length < replicaNum then
    ⟨[], peers, some .noEnoughWritableHosts, charged⟩
  else
    match reshuffleHosts shuffle orderHosts with
    | none => ⟨[], peers, some .reshuffleFailed, charged⟩
    | some nh => ⟨nh, peers, none, charged⟩

/-! ### Basic helper lemmas -/

theorem reshuffleHosts_of_ne_nil (shuffle : List String → List String)
    {l : List String} (h : l ≠ []) : reshuffleHosts shuffle l = some (shuffle l) := by
  simp [reshuffleHosts, h]

theorem subperm_map {α β : Type} (f : α → β) {l₁ l₂ : List α}
    (h : List.Subperm l₁ l₂) : List.Subperm (l₁.map f) (l₂.map f) := by
  obtain ⟨l, hp, hs⟩ := h
  exact ⟨l.map f, hp.map f, hs.map f⟩

theorem nodup_of_subperm {α : Type} {l₁ l₂ : List α} (h : List.Subperm l₁ l₂)
    (d : l₂.Nodup) : l₁.Nodup := by
  obtain ⟨l, hp, hs⟩ := h
  exact hp.nodup_iff.mp (d.sublist hs)

theorem asfSortedNodes_perm (t : NodeResourceType) (ns : nodeSet) :
    List.Perm (asfSortedNodes t ns) (ns.getNodes t) :=
  List.perm_insertionSort _ _

theorem rrSortedNodes_perm (t : NodeResourceType) (ns : nodeSet) :
    List.Perm (rrSortedNodes t ns) (ns.getNodes t) :=
  List.perm_insertionSort _ _

theorem sortCarry_perm (l : List weightedNode) : List.Perm (sortCarry l) l :=
  List.perm_insertionSort _ _

theorem rrRotated_eq_rotate (t : NodeResourceType) (index : Nat) (ns : nodeSet) :
    rrRotated t index ns = (rrSortedNodes t ns).rotate index := by
  unfold rrRotated
  rcases eq_or_ne (rrSortedNodes t ns) [] with h | h
  · simp [h]
  · rw [← List.rotate_mod,
      List.rotate_eq_drop_append_take
        (Nat.le_of_lt (Nat.mod_lt _ (List.length_pos.mpr h)))]

theorem selectorScan_zero (t : NodeResourceType) (excl : List String)
    (l : List NodeData) : selectorScan t excl l 0 = ([], 0) := by
  cases l <;> rfl

theorem selectorScan_fst (t : NodeResourceType) (excl : List String) :
    ∀ (l : List NodeData) (rn : Nat),
      (selectorScan t excl l rn).1 = (l.filter (acceptNode t excl)).take rn := by
  intro l
  induction l with
  | nil => intro rn; cases rn <;> simp [selectorScan]
  | cons n rest ih =>
    intro rn
    cases rn with
    | zero => simp [selectorScan]
    | succ rn =>
      by_cases h : acceptNode t excl n = true
      · simp [selectorScan, h, ih]
      · simp [selectorScan, h, ih]

theorem selectorScan_all_accept (t : NodeResourceType) (excl : List String) :
    ∀ (l : List NodeData) (rn : Nat), (∀ n ∈ l, acceptNode t excl n = true) →
      selectorScan t excl l rn = (l.take rn, min rn l.length) := by
  intro l
  induction l with
  | nil => intro rn _; cases rn <;> simp [selectorScan]
  | cons n rest ih =>
    intro rn h
    cases rn with
    | zero => simp [selectorScan]
    | succ rn =>
      have hn : acceptNode t excl n = true := h n (by simp)
      have hr := ih rn (fun x hx => h x (by simp [hx]))
      simp [selectorScan, hn, hr, Nat.succ_min_succ]

theorem selectorScan_length_le (t : NodeResourceType) (excl : List String)
    (l : List NodeData) (rn : Nat) : (selectorScan t excl l rn).1.length ≤ rn := by
  rw [selectorScan_fst]
  exact List.length_take_le _ _

/-- Case analysis of the RoundRobin cursor: on a successful call the new
cursor is the old one plus the examined count of the scan; on any error
return the cursor is untouched (the source returns before the
`s.index += nodeIndex` line). -/
theorem rr_cursor_spec (t : NodeResourceType) (idx : Nat) (ns : nodeSet)
    (excl : List String) (rn : Nat) (sh : List String → List String) :
    ((RoundRobinSelect t idx ns excl rn sh).1.err = none →
      (RoundRobinSelect t idx ns excl rn sh).2 =
        idx + (selectorScan t excl (rrRotated t idx ns) rn).2)
    ∧ ((RoundRobinSelect t idx ns excl rn sh).1.err ≠ none →
      (RoundRobinSelect t idx ns excl rn sh).2 = idx) := by
  rcases eq_or_ne rn 0 with h0 | h0
  · subst h0
    simp [RoundRobinSelect, selectorScan_zero]
  · by_cases hlen : (ns.getNodes t).length < rn
    · simp [RoundRobinSelect, h0, hlen]
    · by_cases hshort : (selectorScan t excl (rrRotated t idx ns) rn).1.length < rn
      · simp [RoundRobinSelect, h0, hlen, hshort]
      · have hne : (selectorScan t excl (rrRotated t idx ns) rn).1.map (fun n => n.Addr) ≠ [] := by
          intro he
          have : (selectorScan t excl (rrRotated t idx ns) rn).1.length = 0 := by
            simpa using congrArg List.length he
          omega
        simp [RoundRobinSelect, h0, hlen, hshort, reshuffleHosts_of_ne_nil sh hne]

/-- Dissection of an AvailableSpaceFirst call: the charged nodes are the
scan's accepted prefix, the hosts are its addresses (shuffled) exactly on
success, and an erroring call accepted fewer than `replicaNum` nodes. -/
theorem asf_out (t : NodeResourceType) (ns : nodeSet) (excl : List String)
    (rn : Nat) (sh : List String → List String) :
    ∃ picked : List NodeData,
      List.Sublist picked ((asfSortedNodes t ns).filter (acceptNode t excl)) ∧
      (AvailableSpaceFirstSelect t ns excl rn sh).charged = picked.map (fun n => n.ID) ∧
      picked.length ≤ rn ∧
      ((AvailableSpaceFirstSelect t ns excl rn sh).err = none →
        picked.length = rn ∧
        ((∀ l, List.Perm (sh l) l) →
          List.Perm (AvailableSpaceFirstSelect t ns excl rn sh).newHosts
            (picked.map (fun n => n.Addr)))) ∧
      ((AvailableSpaceFirstSelect t ns excl rn sh).err ≠ none →
        picked.length < rn ∧ (AvailableSpaceFirstSelect t ns excl rn sh).newHosts = []) ∧
      ((AvailableSpaceFirstSelect t ns excl rn sh).err = none → rn ≠ 0 →
        picked = ((asfSortedNodes t ns).filter (acceptNode t excl)).take rn) := by
  rcases eq_or_ne rn 0 with h0 | h0
  · subst h0
    refine ⟨[], List.nil_sublist _, ?_⟩
    simp [AvailableSpaceFirstSelect]
  · by_cases hlen : (ns.getNodes t).length < rn
    · refine ⟨[], List.nil_sublist _, ?_⟩
      simp [AvailableSpaceFirstSelect, h0, hlen]
      omega
    · by_cases hshort : (selectorScan t excl (asfSortedNodes t ns) rn).1.length < rn
      · refine ⟨(selectorScan t excl (asfSortedNodes t ns) rn).1, ?_, ?_⟩
        · rw [selectorScan_fst]
          exact List.take_sublist _ _
        · simp [AvailableSpaceFirstSelect, h0, hlen, hshort, selectorScan_length_le]
      · have hne : (selectorScan t excl (asfSortedNodes t ns) rn).1.map (fun n => n.Addr) ≠ [] := by
          intro he
          have : (selectorScan t excl (asfSortedNodes t ns) rn).1.length = 0 := by
            simpa using congrArg List.length he
          omega
        have hshort2 : ¬((selectorScan t excl (asfSortedNodes t ns) rn).1.map
            (fun n => n.Addr)).length < rn := by
          rw [List.length_map]
          exact hshort
        have hout : AvailableSpaceFirstSelect t ns excl rn sh =
            ⟨sh ((selectorScan t excl (asfSortedNodes t ns) rn).1.map (fun n => n.Addr)),
             (selectorScan t excl (asfSortedNodes t ns) rn).1.map (fun n => Peer.mk n.ID n.Addr),
             none,
             (selectorScan t excl (asfSortedNodes t ns) rn).1.map (fun n => n.ID)⟩ := by
          simp only [AvailableSpaceFirstSelect, if_neg h0, if_neg hlen, if_neg hshort2,
            reshuffleHosts_of_ne_nil sh hne]
        have hlen2 : (selectorScan t excl (asfSortedNodes t ns) rn).1.length = rn := by
          have := selectorScan_length_le t excl (asfSortedNodes t ns) rn
          omega
        refine ⟨(selectorScan t excl (asfSortedNodes t ns) rn).1, ?_, ?_, ?_, ?_, ?_, ?_⟩
        · rw [selectorScan_fst]
          exact List.take_sublist _ _
        · rw [hout]
        · exact selectorScan_length_le t excl (asfSortedNodes t ns) rn
        · intro _
          refine ⟨hlen2, fun hsh => ?_⟩
          rw [hout]
          exact hsh _
        · intro he
          exact absurd (by rw [hout]) he
        · intro _ _
          rw [selectorScan_fst]

/-- Dissection of a RoundRobin call, mirroring `asf_out` over the rotated
id-sorted snapshot. -/
theorem rr_out (t : NodeResourceType) (idx : Nat) (ns : nodeSet)
    (excl : List String) (rn : Nat) (sh : List String → List String) :
    ∃ picked : List NodeData,
      List.Sublist picked ((rrRotated t idx ns).filter (acceptNode t excl)) ∧
      (RoundRobinSelect t idx ns excl rn sh).1.charged = picked.map (fun n => n.ID) ∧
      picked.length ≤ rn ∧
      ((RoundRobinSelect t idx ns excl rn sh).1.err = none →
        picked.length = rn ∧
        ((∀ l, List.Perm (sh l) l) →
          List.Perm (RoundRobinSelect t idx ns excl rn sh).1.newHosts
            (picked.map (fun n => n.Addr)))) ∧
      ((RoundRobinSelect t idx ns excl rn sh).1.err ≠ none →
        picked.length < rn ∧ (RoundRobinSelect t idx ns excl rn sh).1.newHosts = []) ∧
      ((RoundRobinSelect t idx ns excl rn sh).1.err = none → rn ≠ 0 →
        picked = ((rrRotated t idx ns).filter (acceptNode t excl)).take rn) := by
  rcases eq_or_ne rn 0 with h0 | h0
  · subst h0
    refine ⟨[], List.nil_sublist _, ?_⟩
    simp [RoundRobinSelect]
  · by_cases hlen : (ns.getNodes t).length < rn
    · refine ⟨[], List.nil_sublist _, ?_⟩
      simp [RoundRobinSelect, h0, hlen]
      omega
    · by_cases hshort : (selectorScan t excl (rrRotated t idx ns) rn).1.length < rn
      · refine ⟨(selectorScan t excl (rrRotated t idx ns) rn).1, ?_, ?_⟩
        · rw [selectorScan_fst]
          exact List.take_sublist _ _
        · simp [RoundRobinSelect, h0, hlen, hshort, selectorScan_length_le]
      · have hne : (selectorScan t excl (rrRotated t idx ns) rn).1.map (fun n => n.Addr) ≠ [] := by
          intro he
          have : (selectorScan t excl (rrRotated t idx ns) rn).1.length = 0 := by
            simpa using congrArg List.length he
          omega
        have hshort2 : ¬((selectorScan t excl (rrRotated t idx ns) rn).1.map
            (fun n => n.Addr)).length < rn := by
          rw [List.length_map]
          exact hshort
        have hout : (RoundRobinSelect t idx ns excl rn sh).1 =
            ⟨sh ((selectorScan t excl (rrRotated t idx ns) rn).1.map (fun n => n.Addr)),
             (selectorScan t excl (rrRotated t idx ns) rn).1.map (fun n => Peer.mk n.ID n.Addr),
             none,
             (selectorScan t excl (rrRotated t idx ns) rn).1.map (fun n => n.ID)⟩ := by
          simp only [RoundRobinSelect, if_neg h0, if_neg hlen, if_neg hshort2,
            reshuffleHosts_of_ne_nil sh hne]
        have hlen2 : (selectorScan t excl (rrRotated t idx ns) rn).1.length = rn := by
          have := selectorScan_length_le t excl (rrRotated t idx ns) rn
          omega
        refine ⟨(selectorScan t excl (rrRotated t idx ns) rn).1, ?_, ?_, ?_, ?_, ?_, ?_⟩
        · rw [selectorScan_fst]
          exact List.take_sublist _ _
        · rw [hout]
        · exact selectorScan_length_le t excl (rrRotated t idx ns) rn
        · intro _
          refine ⟨hlen2, fun hsh => ?_⟩
          rw [hout]
          exact hsh _
        · intro he
          exact absurd (by rw [hout]) he
        · intro _ _
          rw [selectorScan_fst]

theorem selectOneNodeAux_bound (straws : Nat → ℚ) :
    ∀ (l : List NodeData) (i : Nat) (ms : ℚ) (idx : Int),
      0 ≤ idx → idx < (i : Int) →
      0 ≤ (selectOneNodeAux straws i ms idx l).2 ∧
        (selectOneNodeAux straws i ms idx l).2 < (i : Int) + l.length := by
  intro l
  induction l with
  | nil =>
    intro i ms idx h0 hi
    simp only [selectOneNodeAux]
    constructor
    · exact h0
    · omega
  | cons n rest ih =>
    intro i ms idx h0 hi
    simp only [selectOneNodeAux]
    by_cases hc : idx = -1 ∨ straws i > ms
    · rw [if_pos hc]
      have h := ih (i + 1) (straws i) (i : Int) (by positivity) (by push_cast; omega)
      refine ⟨h.1, ?_⟩
      have h2 := h.2
      push_cast [List.length_cons] at h2 ⊢
      omega
    · rw [if_neg hc]
      have h := ih (i + 1) ms idx h0 (by push_cast at hi ⊢; omega)
      refine ⟨h.1, ?_⟩
      have h2 := h.2
      push_cast [List.length_cons] at h2 ⊢
      omega

theorem selectOneNode_bound (straws : Nat → ℚ) (hd : NodeData) (tl : List NodeData) :
    0 ≤ selectOneNode straws (hd :: tl) ∧
      selectOneNode straws (hd :: tl) < ((hd :: tl).length : Int) := by
  unfold selectOneNode
  simp only [selectOneNodeAux]
  rw [if_pos (Or.inl trivial)]
  have h := selectOneNodeAux_bound straws tl 1 (straws 0) 0 le_rfl (by norm_num)
  refine ⟨h.1, ?_⟩
  have h2 := h.2
  push_cast [List.length_cons] at h2 ⊢
  omega

theorem getD_cons_set_perm :
    ∀ (tl : List NodeData) (j : Nat) (hd : NodeData), j < tl.length →
      List.Perm (tl.getD j hd :: tl.set j hd) (hd :: tl) := by
  intro tl
  induction tl with
  | nil => intro j hd h; simp at h
  | cons a tl2 ih =>
    intro j hd h
    cases j with
    | zero => simpa using List.Perm.swap hd a tl2
    | succ k =>
      have hk : k < tl2.length := by simpa using h
      have hih := ih k hd hk
      simp only [List.getD_cons_succ, List.set_cons_succ]
      have s1 : List.Perm (tl2.getD k hd :: a :: tl2.set k hd)
          (a :: tl2.getD k hd :: tl2.set k hd) := List.Perm.swap a _ _
      have s2 : List.Perm (a :: tl2.getD k hd :: tl2.set k hd) (a :: hd :: tl2) :=
        hih.cons a
      have s3 : List.Perm (a :: hd :: tl2) (hd :: a :: tl2) := List.Perm.swap hd a tl2
      exact (s1.trans s2).trans s3

theorem swap_remove_perm (hd : NodeData) (tl : List NodeData) (i : Nat)
    (h : i < (hd :: tl).length) :
    List.Perm ((hd :: tl).getD i hd :: ((hd :: tl).set i hd).tail) (hd :: tl) := by
  cases i with
  | zero => simp
  | succ j =>
    have hj : j < tl.length := by simpa using h
    simpa using getD_cons_set_perm tl j hd hj

theorem strawLoop_stop (t : NodeResourceType) (straws : Nat → Nat → ℚ)
    (round : Nat) (nodes : List NodeData) (picked : List NodeData) (rn : Nat)
    (h1 : ¬picked.length < rn) :
    strawLoop t straws round nodes picked rn = picked := by
  rw [strawLoop.eq_def, if_neg h1]

theorem strawLoop_break (t : NodeResourceType) (straws : Nat → Nat → ℚ)
    (round : Nat) (nodes : List NodeData) (picked : List NodeData) (rn : Nat)
    (h1 : picked.length < rn) (h2 : nodes.length + picked.length < rn) :
    strawLoop t straws round nodes picked rn = picked := by
  rw [strawLoop.eq_def, if_pos h1, if_pos h2]

theorem strawLoop_nil (t : NodeResourceType) (straws : Nat → Nat → ℚ)
    (round : Nat) (picked : List NodeData) (rn : Nat) :
    strawLoop t straws round [] picked rn = picked := by
  rw [strawLoop.eq_def]
  split
  · split
    · rfl
    · rfl
  · rfl

theorem strawLoop_cons (t : NodeResourceType) (straws : Nat → Nat → ℚ)
    (round : Nat) (hd : NodeData) (tl : List NodeData) (picked : List NodeData)
    (rn : Nat) (h1 : picked.length < rn)
    (h2 : ¬(hd :: tl).length + picked.length < rn) :
    strawLoop t straws round (hd :: tl) picked rn =
      (if canAllocPartition
          ((hd :: tl).getD (selectOneNode (straws round) (hd :: tl)).toNat hd) t = true then
        strawLoop t straws (round + 1)
          (((hd :: tl).set (selectOneNode (straws round) (hd :: tl)).toNat hd).tail)
          (picked ++ [(hd :: tl).getD (selectOneNode (straws round) (hd :: tl)).toNat hd]) rn
      else
        strawLoop t straws (round + 1)
          (((hd :: tl).set (selectOneNode (straws round) (hd :: tl)).toNat hd).tail)
          picked rn) := by
  rw [strawLoop.eq_def, if_pos h1, if_neg h2]

theorem strawLoop_decomp (t : NodeResourceType) (straws : Nat → Nat → ℚ) :
    ∀ (fuel : Nat) (nodes : List NodeData), nodes.length ≤ fuel →
      ∀ (round : Nat) (picked : List NodeData) (rn : Nat),
      ∃ extra, strawLoop t straws round nodes picked rn = picked ++ extra ∧
        List.Subperm extra nodes := by
  intro fuel
  induction fuel with
  | zero =>
    intro nodes hn round picked rn
    have hnil : nodes = [] := List.length_eq_zero.mp (Nat.le_zero.mp hn)
    subst hnil
    exact ⟨[], by simp [strawLoop_nil], List.nil_subperm⟩
  | succ f ih =>
    intro nodes hn round picked rn
    by_cases h1 : picked.length < rn
    · by_cases h2 : nodes.length + picked.length < rn
      · exact ⟨[], by simp [strawLoop_break t straws round nodes picked rn h1 h2],
          List.nil_subperm⟩
      · cases nodes with
        | nil => exact ⟨[], by simp [strawLoop_nil], List.nil_subperm⟩
        | cons hd tl =>
          rw [strawLoop_cons t straws round hd tl picked rn h1 h2]
          have hb := selectOneNode_bound (straws round) hd tl
          have hi2 : (selectOneNode (straws round) (hd :: tl)).toNat < (hd :: tl).length := by
            have hb1 := hb.1
            have hb2 := hb.2
            omega
          have hperm := swap_remove_perm hd tl
            (selectOneNode (straws round) (hd :: tl)).toNat hi2
          have hle : (((hd :: tl).set
              (selectOneNode (straws round) (hd :: tl)).toNat hd).tail).length ≤ f := by
            have : (hd :: tl).length ≤ f + 1 := hn
            simp only [List.length_tail, List.length_set]
            simp only [List.length_cons] at this
            omega
          by_cases h3 : canAllocPartition
              ((hd :: tl).getD (selectOneNode (straws round) (hd :: tl)).toNat hd) t = true
          · rw [if_pos h3]
            obtain ⟨extra, heq, hsub⟩ := ih _ hle (round + 1)
              (picked ++ [(hd :: tl).getD (selectOneNode (straws round) (hd :: tl)).toNat hd]) rn
            refine ⟨(hd :: tl).getD (selectOneNode (straws round) (hd :: tl)).toNat hd :: extra,
              ?_, ?_⟩
            · rw [heq]
              simp
            · obtain ⟨w, hw, hws⟩ := hsub
              exact List.Subperm.trans ⟨_ :: w, hw.cons _, hws.cons₂ _⟩ hperm.subperm
          · rw [if_neg h3]
            obtain ⟨extra, heq, hsub⟩ := ih _ hle (round + 1) picked rn
            exact ⟨extra, heq, List.Subperm.trans (hsub.cons_right _) hperm.subperm⟩
    · exact ⟨[], by simp [strawLoop_stop t straws round nodes picked rn h1], List.nil_subperm⟩

theorem strawLoop_length_le (t : NodeResourceType) (straws : Nat → Nat → ℚ) :
    ∀ (fuel : Nat) (nodes : List NodeData), nodes.length ≤ fuel →
      ∀ (round : Nat) (picked : List NodeData) (rn : Nat), picked.length ≤ rn →
      (strawLoop t straws round nodes picked rn).length ≤ rn := by
  intro fuel
  induction fuel with
  | zero =>
    intro nodes hn round picked rn hp
    have hnil : nodes = [] := List.length_eq_zero.mp (Nat.le_zero.mp hn)
    subst hnil
    rw [strawLoop_nil]
    exact hp
  | succ f ih =>
    intro nodes hn round picked rn hp
    by_cases h1 : picked.length < rn
    · by_cases h2 : nodes.length + picked.length < rn
      · rw [strawLoop_break t straws round nodes picked rn h1 h2]
        exact hp
      · cases nodes with
        | nil =>
          rw [strawLoop_nil]
          exact hp
        | cons hd tl =>
          rw [strawLoop_cons t straws round hd tl picked rn h1 h2]
          have hle : (((hd :: tl).set
              (selectOneNode (straws round) (hd :: tl)).toNat hd).tail).length ≤ f := by
            have : (hd :: tl).length ≤ f + 1 := hn
            simp only [List.length_tail, List.length_set]
            simp only [List.length_cons] at this
            omega
          by_cases h3 : canAllocPartition
              ((hd :: tl).getD (selectOneNode (straws round) (hd :: tl)).toNat hd) t = true
          · rw [if_pos h3]
            exact ih _ hle (round + 1) _ rn (by simp; omega)
          · rw [if_neg h3]
            exact ih _ hle (round + 1) picked rn hp
    · rw [strawLoop_stop t straws round nodes picked rn h1]
      exact hp

/-- Dissection of a Straw call: the accepted nodes form a sub-permutation
of the non-excluded candidates; hosts/peers/charges are their images. -/
theorem straw_out (t : NodeResourceType) (straws : Nat → Nat → ℚ) (ns : nodeSet)
    (excl : List String) (rn : Nat) (sh : List String → List String) :
    ∃ picked : List NodeData,
      List.Subperm picked ((ns.getNodes t).filter (fun n => !(contains excl n.Addr))) ∧
      (StrawSelect t straws ns excl rn sh).charged = picked.map (fun n => n.ID) ∧
      picked.length ≤ rn ∧
      ((StrawSelect t straws ns excl rn sh).err = none →
        picked.length = rn ∧
        ((∀ l, List.Perm (sh l) l) →
          List.Perm (StrawSelect t straws ns excl rn sh).newHosts
            (picked.map (fun n => n.Addr)))) ∧
      ((StrawSelect t straws ns excl rn sh).err ≠ none →
        (picked.length < rn ∨ picked = []) ∧
        (StrawSelect t straws ns excl rn sh).newHosts = []) := by
  obtain ⟨extra, heq, hsub⟩ := strawLoop_decomp t straws
    ((ns.getNodes t).filter (fun n => !(contains excl n.Addr))).length
    ((ns.getNodes t).filter (fun n => !(contains excl n.Addr))) le_rfl 0 [] rn
  simp only [List.nil_append] at heq
  have hply : extra.length ≤ rn := by
    have h := strawLoop_length_le t straws
      ((ns.getNodes t).filter (fun n => !(contains excl n.Addr))).length
      ((ns.getNodes t).filter (fun n => !(contains excl n.Addr))) le_rfl 0 [] rn
      (Nat.zero_le rn)
    rw [heq] at h
    exact h
  refine ⟨extra, hsub, ?_⟩
  by_cases hshort : (extra.map (fun n => n.Addr)).length < rn
  · have hout : StrawSelect t straws ns excl rn sh =
        ⟨[], extra.map (fun n => Peer.mk n.ID n.Addr), some .noEnoughWritableHosts,
         extra.map (fun n => n.ID)⟩ := by
      simp only [StrawSelect, heq, if_pos hshort]
    rw [hout]
    refine ⟨rfl, hply, ?_, ?_⟩
    · intro h
      simp at h
    · intro _
      refine ⟨Or.inl ?_, rfl⟩
      simpa using hshort
  · by_cases hnil : extra.map (fun n => n.Addr) = []
    · have hext : extra = [] := List.map_eq_nil_iff.mp hnil
      have hout : StrawSelect t straws ns excl rn sh =
          ⟨[], extra.map (fun n => Peer.mk n.ID n.Addr), some .reshuffleFailed,
           extra.map (fun n => n.ID)⟩ := by
        have hrn : ¬(([] : List String).length < rn) := by
          rw [← hnil]
          exact hshort
        have hre : reshuffleHosts sh ([] : List String) = none := rfl
        simp only [StrawSelect, heq, hnil, hre]
        rw [if_neg hrn]
      rw [hout]
      refine ⟨rfl, hply, ?_, ?_⟩
      · intro h
        simp at h
      · intro _
        exact ⟨Or.inr hext, rfl⟩
    · have hout : StrawSelect t straws ns excl rn sh =
          ⟨sh (extra.map (fun n => n.Addr)), extra.map (fun n => Peer.mk n.ID n.Addr),
           none, extra.map (fun n => n.ID)⟩ := by
        simp only [StrawSelect, heq, if_neg hshort, reshuffleHosts_of_ne_nil sh hnil]
      rw [hout]
      refine ⟨rfl, hply, ?_, ?_⟩
      · intro _
        refine ⟨?_, fun hsh => hsh _⟩
        have : extra.length = (extra.map (fun n => n.Addr)).length := by simp
        omega
      · intro h
        exact absurd rfl h

theorem carryUpdate_mem :
    ∀ (m : CarryMap) (k : Nat) (v : ℚ) (p : Nat × ℚ),
      p ∈ carryUpdate m k v → p ∈ m ∨ p = (k, v) := by
  intro m k v
  induction m with
  | nil =>
    intro p hp
    simp [carryUpdate] at hp
    exact Or.inr hp
  | cons q rest ih =>
    intro p hp
    by_cases hq : q.1 = k
    · rw [carryUpdate, if_pos hq] at hp
      rcases List.mem_cons.mp hp with h | h
      · exact Or.inr h
      · exact Or.inl (List.mem_cons_of_mem q h)
    · rw [carryUpdate, if_neg hq] at hp
      rcases List.mem_cons.mp hp with h | h
      · exact Or.inl (h ▸ List.mem_cons_self q rest)
      · rcases ih p h with h2 | h2
        · exact Or.inl (List.mem_cons_of_mem q h2)
        · exact Or.inr h2

theorem advanceEntry_carry_le (n : weightedNode) : (advanceEntry n).Carry ≤ 10 := by
  unfold advanceEntry
  dsimp only
  split
  · exact le_rfl
  · exact le_of_not_lt (by assumption)

theorem advanceEntry_ptr (n : weightedNode) : (advanceEntry n).Ptr = n.Ptr := rfl

theorem advanceEntry_weight (n : weightedNode) : (advanceEntry n).Weight = n.Weight := rfl

theorem advanceEntry_carry_eq_min (n : weightedNode) :
    (advanceEntry n).Carry = min (n.Carry + n.Weight) 10 := by
  unfold advanceEntry
  dsimp only
  split
  · exact (min_eq_right (le_of_lt (by assumption))).symm
  · exact (min_eq_left (le_of_not_lt (by assumption))).symm

theorem advanceAll_nodes (m : CarryMap) :
    ∀ l : List weightedNode, (advanceAll m l).2.1 = l.map advanceEntry := by
  intro l
  induction l generalizing m with
  | nil => rfl
  | cons n rest ih => simp [advanceAll, ih]

theorem advanceAll_count (m : CarryMap) :
    ∀ l : List weightedNode,
      (advanceAll m l).2.2 =
        ((l.map advanceEntry).filter (fun nt => decide (1 < nt.Carry))).length := by
  intro l
  induction l generalizing m with
  | nil => rfl
  | cons n rest ih =>
    by_cases h : 1 < (advanceEntry n).Carry
    · simp [advanceAll, ih, h]
    · simp [advanceAll, ih, h]

theorem advanceAll_map_mem (m : CarryMap) :
    ∀ (l : List weightedNode) (p : Nat × ℚ),
      p ∈ (advanceAll m l).1 → p ∈ m ∨ p.2 ≤ 10 := by
  intro l
  induction l generalizing m with
  | nil =>
    intro p hp
    exact Or.inl hp
  | cons n rest ih =>
    intro p hp
    have hp2 : p ∈ (advanceAll (carryUpdate m n.Ptr.ID (advanceEntry n).Carry) rest).1 := hp
    rcases ih (carryUpdate m n.Ptr.ID (advanceEntry n).Carry) p hp2 with h | h
    · rcases carryUpdate_mem m n.Ptr.ID (advanceEntry n).Carry p h with h2 | h2
      · exact Or.inl h2
      · refine Or.inr ?_
        rw [h2]
        exact advanceEntry_carry_le n
    · exact Or.inr h

theorem setNodeCarry_some_shape :
    ∀ (fuel : Nat) (m : CarryMap) (l : List weightedNode) (avail rn : Nat)
      (m2 : CarryMap) (l2 : List weightedNode),
      setNodeCarry fuel m l avail rn = some (m2, l2) →
      l2.map weightedNode.Ptr = l.map weightedNode.Ptr ∧ l2.length = l.length := by
  intro fuel
  induction fuel with
  | zero =>
    intro m l avail rn m2 l2 h
    rw [setNodeCarry] at h
    by_cases hc : avail < rn
    · rw [if_pos hc] at h
      exact absurd h (by simp)
    · rw [if_neg hc] at h
      simp at h
      rw [h.2]
      exact ⟨rfl, rfl⟩
  | succ f ih =>
    intro m l avail rn m2 l2 h
    rw [setNodeCarry] at h
    by_cases hc : avail < rn
    · rw [if_pos hc] at h
      have h2 := ih _ _ _ _ _ _ h
      rw [advanceAll_nodes] at h2
      refine ⟨?_, ?_⟩
      · rw [h2.1, List.map_map]
        congr 1
      · rw [h2.2, List.length_map]
    · rw [if_neg hc] at h
      simp at h
      rw [h.2]
      exact ⟨rfl, rfl⟩

theorem setNodeCarry_entries_le :
    ∀ (fuel : Nat) (m : CarryMap) (l : List weightedNode) (avail rn : Nat)
      (m2 : CarryMap) (l2 : List weightedNode),
      (∀ p ∈ m, p.2 ≤ 10) →
      setNodeCarry fuel m l avail rn = some (m2, l2) →
      ∀ p ∈ m2, p.2 ≤ 10 := by
  intro fuel
  induction fuel with
  | zero =>
    intro m l avail rn m2 l2 hm h
    rw [setNodeCarry] at h
    by_cases hc : avail < rn
    · rw [if_pos hc] at h
      exact absurd h (by simp)
    · rw [if_neg hc] at h
      simp at h
      rw [← h.1]
      exact hm
  | succ f ih =>
    intro m l avail rn m2 l2 hm h
    rw [setNodeCarry] at h
    by_cases hc : avail < rn
    · rw [if_pos hc] at h
      refine ih _ _ _ _ _ _ ?_ h
      intro p hp
      rcases advanceAll_map_mem m l p hp with h2 | h2
      · exact hm p h2
      · exact h2
    · rw [if_neg hc] at h
      simp at h
      rw [← h.1]
      exact hm

theorem advanceEntry_iterate_weight (n : weightedNode) :
    ∀ k : Nat, (advanceEntry^[k] n).Weight = n.Weight := by
  intro k
  induction k with
  | zero => rfl
  | succ k ih => rw [Function.iterate_succ_apply', advanceEntry_weight, ih]

theorem advanceEntry_iterate_carry (n : weightedNode) (hw : 0 ≤ n.Weight) :
    ∀ k : Nat, (advanceEntry^[k + 1] n).Carry = min (n.Carry + ((k : ℚ) + 1) * n.Weight) 10 := by
  intro k
  induction k with
  | zero =>
    rw [Function.iterate_one, advanceEntry_carry_eq_min]
    norm_num
  | succ k ih =>
    rw [Function.iterate_succ_apply', advanceEntry_carry_eq_min,
      advanceEntry_iterate_weight, ih]
    rw [← min_add_add_right, min_assoc,
      min_eq_right (le_add_of_nonneg_right hw : (10 : ℚ) ≤ 10 + n.Weight)]
    push_cast
    ring_nf

theorem exists_pass_all_above :
    ∀ l : List weightedNode, (∀ n ∈ l, 0 < n.Weight) →
      ∃ K : Nat, ∀ n ∈ l, 1 < (advanceEntry^[K + 1] n).Carry := by
  intro l
  induction l with
  | nil => exact fun _ => ⟨0, by simp⟩
  | cons a l ih =>
    intro hw
    obtain ⟨K1, hK1⟩ := ih (fun n hn => hw n (List.mem_cons_of_mem a hn))
    have hwa : 0 < a.Weight := hw a (List.mem_cons_self a l)
    obtain ⟨K2, hK2⟩ := exists_nat_gt ((1 - a.Carry) / a.Weight)
    refine ⟨max K1 K2, ?_⟩
    intro n hn
    have hmono : ∀ (x : weightedNode) (j k : Nat), 0 ≤ x.Weight → j ≤ k →
        (advanceEntry^[j + 1] x).Carry ≤ (advanceEntry^[k + 1] x).Carry := by
      intro x j k hx hjk
      rw [advanceEntry_iterate_carry x hx, advanceEntry_iterate_carry x hx]
      refine min_le_min (add_le_add_left ?_ _) le_rfl
      have : ((j : ℚ) + 1) ≤ ((k : ℚ) + 1) := by
        have := (Nat.cast_le (α := ℚ)).mpr hjk
        linarith
      exact mul_le_mul_of_nonneg_right this hx
    rcases List.mem_cons.mp hn with rfl | hn
    · rw [advanceEntry_iterate_carry n (le_of_lt hwa)]
      refine lt_min ?_ (by norm_num)
      have hmax : ((K2 : ℚ)) ≤ ((K1 ⊔ K2 : ℕ) : ℚ) :=
        (Nat.cast_le (α := ℚ)).mpr (le_max_right K1 K2)
      have hK2b : (1 - n.Carry) / n.Weight < ((K1 ⊔ K2 : ℕ) : ℚ) + 1 := by linarith
      have h2 : 1 - n.Carry < (((K1 ⊔ K2 : ℕ) : ℚ) + 1) * n.Weight :=
        (div_lt_iff₀ hwa).mp hK2b
      linarith
    · have h1 := hK1 n hn
      have h2 := hmono n K1 (max K1 K2) (le_of_lt (hw n (List.mem_cons_of_mem a hn)))
        (le_max_left K1 K2)
      exact lt_of_lt_of_le h1 h2

theorem map_iterate {α : Type} (g : α → α) :
    ∀ (k : Nat) (l : List α), (List.map g)^[k] l = l.map (g^[k]) := by
  intro k
  induction k with
  | zero => intro l; simp
  | succ k ih =>
    intro l
    rw [Function.iterate_succ_apply, ih, List.map_map, Function.iterate_succ]

theorem setNodeCarry_none :
    ∀ (fuel : Nat) (m : CarryMap) (l : List weightedNode) (avail rn : Nat),
      setNodeCarry fuel m l avail rn = none →
      (fuel = 0 ∧ avail < rn) ∨
        (((List.map advanceEntry)^[fuel] l).filter
          (fun nt => decide (1 < nt.Carry))).length < rn := by
  intro fuel
  induction fuel with
  | zero =>
    intro m l avail rn h
    rw [setNodeCarry] at h
    by_cases hc : avail < rn
    · exact Or.inl ⟨rfl, hc⟩
    · rw [if_neg hc] at h
      exact absurd h (by simp)
  | succ f ih =>
    intro m l avail rn h
    rw [setNodeCarry] at h
    by_cases hc : avail < rn
    · rw [if_pos hc] at h
      rcases ih _ _ _ _ h with ⟨hf, hlt⟩ | hlt
      · subst hf
        rw [advanceAll_count] at hlt
        refine Or.inr ?_
        simpa using hlt
      · refine Or.inr ?_
        rw [advanceAll_nodes] at hlt
        rw [Function.iterate_succ_apply]
        exact hlt
    · rw [if_neg hc] at h
      exact absurd h (by simp)

theorem getCarryDataNodes_ptr_sublist (m : CarryMap) (maxTotal : Nat)
    (excl : List String) :
    ∀ l : List NodeData,
      List.Sublist ((getCarryDataNodes m maxTotal excl l).1.map weightedNode.Ptr) l := by
  intro l
  induction l with
  | nil => simp [getCarryDataNodes]
  | cons dn rest ih =>
    rw [getCarryDataNodes]
    by_cases h1 : contains excl dn.Addr = true
    · rw [if_pos h1]
      exact ih.cons dn
    · rw [if_neg h1]
      by_cases h2 : (!dn.canAllocDpRes) = true
      · rw [if_pos h2]
        exact ih.cons dn
      · rw [if_neg h2]
        by_cases h3 : (!dn.canAllocRes) = true
        · rw [if_pos h3]
          exact ih.cons dn
        · rw [if_neg h3]
          simpa using ih.cons₂ dn

theorem getCarryDataNodes_not_excluded (m : CarryMap) (maxTotal : Nat)
    (excl : List String) :
    ∀ l : List NodeData, ∀ wn ∈ (getCarryDataNodes m maxTotal excl l).1,
      contains excl wn.Ptr.Addr = false := by
  intro l
  induction l with
  | nil => simp [getCarryDataNodes]
  | cons dn rest ih =>
    intro wn hwn
    rw [getCarryDataNodes] at hwn
    by_cases h1 : contains excl dn.Addr = true
    · rw [if_pos h1] at hwn
      exact ih wn hwn
    · rw [if_neg h1] at hwn
      by_cases h2 : (!dn.canAllocDpRes) = true
      · rw [if_pos h2] at hwn
        exact ih wn hwn
      · rw [if_neg h2] at hwn
        by_cases h3 : (!dn.canAllocRes) = true
        · rw [if_pos h3] at hwn
          exact ih wn hwn
        · rw [if_neg h3] at hwn
          rcases List.mem_cons.mp hwn with h | h
          · rw [h]
            exact Bool.not_eq_true _ ▸ (by simpa using h1)
          · exact ih wn h

theorem getCarryDataNodes_count (m : CarryMap) (maxTotal : Nat)
    (excl : List String) :
    ∀ l : List NodeData,
      (getCarryDataNodes m maxTotal excl l).2 =
        ((getCarryDataNodes m maxTotal excl l).1.filter
          (fun nt => decide (1 ≤ nt.Carry))).length := by
  intro l
  induction l with
  | nil => simp [getCarryDataNodes]
  | cons dn rest ih =>
    rw [getCarryDataNodes]
    by_cases h1 : contains excl dn.Addr = true
    · rw [if_pos h1]
      exact ih
    · rw [if_neg h1]
      by_cases h2 : (!dn.canAllocDpRes) = true
      · rw [if_pos h2]
        exact ih
      · rw [if_neg h2]
        by_cases h3 : (!dn.canAllocRes) = true
        · rw [if_pos h3]
          exact ih
        · rw [if_neg h3]
          by_cases h4 : 1 ≤ carryLookup m dn.ID
          · simp only [if_pos h4]
            simp [List.filter, h4, ih]
          · simp only [if_neg h4]
            simp [List.filter, h4, ih]

theorem getCarryMetaNodes_ptr_sublist (t : NodeResourceType) (m : CarryMap)
    (maxTotal : Nat) (excl : List String) :
    ∀ l : List NodeData,
      List.Sublist ((getCarryMetaNodes t m maxTotal excl l).1.map weightedNode.Ptr) l := by
  intro l
  induction l with
  | nil => simp [getCarryMetaNodes]
  | cons mn rest ih =>
    rw [getCarryMetaNodes]
    by_cases h1 : contains excl mn.Addr = true
    · rw [if_pos h1]
      exact ih.cons mn
    · rw [if_neg h1]
      by_cases h2 : (!(if t = .MetaNodeRocksdb then mn.isWritableRocksRes
          else mn.isWritableMemRes)) = true
      · rw [if_pos h2]
        exact ih.cons mn
      · rw [if_neg h2]
        simpa using ih.cons₂ mn

theorem getCarryMetaNodes_not_excluded (t : NodeResourceType) (m : CarryMap)
    (maxTotal : Nat) (excl : List String) :
    ∀ l : List NodeData, ∀ wn ∈ (getCarryMetaNodes t m maxTotal excl l).1,
      contains excl wn.Ptr.Addr = false := by
  intro l
  induction l with
  | nil => simp [getCarryMetaNodes]
  | cons mn rest ih =>
    intro wn hwn
    rw [getCarryMetaNodes] at hwn
    by_cases h1 : contains excl mn.Addr = true
    · rw [if_pos h1] at hwn
      exact ih wn hwn
    · rw [if_neg h1] at hwn
      by_cases h2 : (!(if t = .MetaNodeRocksdb then mn.isWritableRocksRes
          else mn.isWritableMemRes)) = true
      · rw [if_pos h2] at hwn
        exact ih wn hwn
      · rw [if_neg h2] at hwn
        rcases List.mem_cons.mp hwn with h | h
        · rw [h]
          exact Bool.not_eq_true _ ▸ (by simpa using h1)
        · exact ih wn h

theorem getCarryMetaNodes_count (t : NodeResourceType) (m : CarryMap)
    (maxTotal : Nat) (excl : List String) :
    ∀ l : List NodeData,
      (getCarryMetaNodes t m maxTotal excl l).2 =
        ((getCarryMetaNodes t m maxTotal excl l).1.filter
          (fun nt => decide (1 ≤ nt.Carry))).length := by
  intro l
  induction l with
  | nil => simp [getCarryMetaNodes]
  | cons mn rest ih =>
    rw [getCarryMetaNodes]
    by_cases h1 : contains excl mn.Addr = true
    · rw [if_pos h1]
      exact ih
    · rw [if_neg h1]
      by_cases h2 : (!(if t = .MetaNodeRocksdb then mn.isWritableRocksRes
          else mn.isWritableMemRes)) = true
      · rw [if_pos h2]
        exact ih
      · rw [if_neg h2]
        by_cases h4 : 1 ≤ carryLookup m mn.ID
        · simp only [if_pos h4]
          simp [List.filter, h4, ih]
        · simp only [if_neg h4]
          simp [List.filter, h4, ih]

theorem getCarryNodes_ptr_sublist (t : NodeResourceType) (m : CarryMap)
    (maxTotal : Nat) (excl : List String) (ns : nodeSet) :
    List.Sublist ((getCarryNodes t m maxTotal excl ns).1.map weightedNode.Ptr)
      (ns.getNodes t) := by
  cases t with
  | DataNodeDisk => exact getCarryDataNodes_ptr_sublist m maxTotal excl ns.dataNodes
  | MetaNodeMemory => exact getCarryMetaNodes_ptr_sublist _ m maxTotal excl ns.metaNodes
  | MetaNodeRocksdb => exact getCarryMetaNodes_ptr_sublist _ m maxTotal excl ns.metaNodes

theorem getCarryNodes_not_excluded (t : NodeResourceType) (m : CarryMap)
    (maxTotal : Nat) (excl : List String) (ns : nodeSet) :
    ∀ wn ∈ (getCarryNodes t m maxTotal excl ns).1,
      contains excl wn.Ptr.Addr = false := by
  cases t with
  | DataNodeDisk => exact getCarryDataNodes_not_excluded m maxTotal excl ns.dataNodes
  | MetaNodeMemory => exact getCarryMetaNodes_not_excluded _ m maxTotal excl ns.metaNodes
  | MetaNodeRocksdb => exact getCarryMetaNodes_not_excluded _ m maxTotal excl ns.metaNodes

/-- Dissection of a CarryWeight call: on success the returned data comes
from the first `replicaNum` entries of the carry-sorted weighted list; on
error nothing was picked and nothing charged. -/
theorem cw_out (t : NodeResourceType) (m : CarryMap) (ns : nodeSet)
    (excl : List String) (rn : Nat) (sh : List String → List String) (fuel : Nat)
    (out : SelectOut) (m2 : CarryMap)
    (h : CarryWeightSelect t m ns excl rn sh fuel = some (out, m2)) :
    ∃ picked : List weightedNode,
      List.Subperm (picked.map weightedNode.Ptr) (ns.getNodes t) ∧
      (∀ wn ∈ picked, contains excl wn.Ptr.Addr = false) ∧
      out.charged = picked.map (fun wn => wn.Ptr.ID) ∧
      (out.err = none → picked.length = rn ∧
        ((∀ l, List.Perm (sh l) l) →
          List.Perm out.newHosts (picked.map (fun wn => wn.Ptr.Addr)))) ∧
      (out.err ≠ none → picked = [] ∧ out.newHosts = []) := by
  rcases eq_or_ne rn 0 with h0 | h0
  · subst h0
    simp only [CarryWeightSelect, if_pos rfl, Option.some.injEq, Prod.mk.injEq] at h
    obtain ⟨rfl, -⟩ := h
    refine ⟨[], List.nil_subperm, by simp, rfl, ?_, ?_⟩
    · intro _
      exact ⟨rfl, fun _ => by simp⟩
    · intro he
      exact absurd rfl he
  · by_cases hlen : (getCarryNodes t
        (prepareCarry t (ns.getNodes t) (getTotalMax t (ns.getNodes t)) m)
        (getTotalMax t (ns.getNodes t)) excl ns).1.length < rn
    · simp only [CarryWeightSelect, if_neg h0, if_pos hlen, Option.some.injEq,
        Prod.mk.injEq] at h
      obtain ⟨rfl, -⟩ := h
      refine ⟨[], List.nil_subperm, by simp, rfl, ?_, ?_⟩
      · intro he
        exact absurd he (by simp)
      · intro _
        exact ⟨rfl, rfl⟩
    · rcases hsc : setNodeCarry fuel
          (prepareCarry t (ns.getNodes t) (getTotalMax t (ns.getNodes t)) m)
          (getCarryNodes t
            (prepareCarry t (ns.getNodes t) (getTotalMax t (ns.getNodes t)) m)
            (getTotalMax t (ns.getNodes t)) excl ns).1
          (getCarryNodes t
            (prepareCarry t (ns.getNodes t) (getTotalMax t (ns.getNodes t)) m)
            (getTotalMax t (ns.getNodes t)) excl ns).2 rn with _ | pair
      · rw [CarryWeightSelect.eq_def] at h
        simp only [if_neg h0, if_neg hlen, hsc] at h
        exact absurd h (by simp)
      · obtain ⟨mc, nodes2⟩ := pair
        have hshape := setNodeCarry_some_shape fuel _ _ _ rn mc nodes2 hsc
        have hlen2 : nodes2.length =
            (getCarryNodes t
              (prepareCarry t (ns.getNodes t) (getTotalMax t (ns.getNodes t)) m)
              (getTotalMax t (ns.getNodes t)) excl ns).1.length := hshape.2
        have hlen3 : (sortCarry nodes2).length = nodes2.length :=
          (sortCarry_perm nodes2).length_eq
        have hplen : ((sortCarry nodes2).take rn).length = rn := by
          rw [List.length_take]
          omega
        have hne : ((sortCarry nodes2).take rn).map (fun wn => wn.Ptr.Addr) ≠ [] := by
          intro he
          have h2 : (((sortCarry nodes2).take rn).map (fun wn => wn.Ptr.Addr)).length = 0 := by
            rw [he]
            rfl
          rw [List.length_map, hplen] at h2
          exact h0 h2
        rw [CarryWeightSelect.eq_def] at h
        simp only [if_neg h0, if_neg hlen, hsc, reshuffleHosts_of_ne_nil sh hne,
          Option.some.injEq, Prod.mk.injEq] at h
        obtain ⟨rfl, -⟩ := h
        refine ⟨(sortCarry nodes2).take rn, ?_, ?_, rfl, ?_, ?_⟩
        · have s1 : List.Sublist (((sortCarry nodes2).take rn).map weightedNode.Ptr)
              ((sortCarry nodes2).map weightedNode.Ptr) :=
            (List.take_sublist _ _).map _
          have s2 : List.Perm ((sortCarry nodes2).map weightedNode.Ptr)
              (nodes2.map weightedNode.Ptr) := (sortCarry_perm nodes2).map _
          have s3 : List.Sublist (nodes2.map weightedNode.Ptr) (ns.getNodes t) := by
            rw [hshape.1]
            exact getCarryNodes_ptr_sublist t _ _ excl ns
          exact (s1.subperm.trans s2.subperm).trans s3.subperm
        · intro wn hwn
          have hwn2 : wn ∈ sortCarry nodes2 := List.mem_of_mem_take hwn
          have hwn3 : wn ∈ nodes2 := (sortCarry_perm nodes2).mem_iff.mp hwn2
          have hptr : wn.Ptr ∈ nodes2.map weightedNode.Ptr :=
            List.mem_map_of_mem _ hwn3
          rw [hshape.1] at hptr
          obtain ⟨w0, hw0, hw0e⟩ := List.mem_map.mp hptr
          have hx := getCarryNodes_not_excluded t _ _ excl ns w0 hw0
          rw [hw0e] at hx
          exact hx
        · intro _
          exact ⟨hplen, fun hsh => hsh _⟩
        · intro he
          exact absurd rfl he

/-! ### Claims -/

/-- C10: if `RoundRobinNodeSelector.Select` returns the
not-enough-writable-hosts error, the selector's cursor (`index` field) is
unchanged by the call, even though nodes were examined during the call
(the source returns before the `s.index += nodeIndex` line). -/
theorem c10_roundrobin_error_cursor_unchanged (t : NodeResourceType) (idx : Nat)
    (ns : nodeSet) (excl : List String) (rn : Nat) (sh : List String → List String)
    (h : (RoundRobinSelect t idx ns excl rn sh).1.err = some .noEnoughWritableHosts) :
    (RoundRobinSelect t idx ns excl rn sh).2 = idx :=
  (rr_cursor_spec t idx ns excl rn sh).2 (by rw [h]; simp)

/-- Witness for C10: a concrete failing call (two data nodes, one
writable, `N = 2`) leaves the cursor at its old value `5`. -/
theorem c10_witness :
    (RoundRobinSelect .DataNodeDisk 5
      ⟨[⟨1, "a", 100, 100, 0, 0, 0, true, true, true, true⟩,
        ⟨2, "b", 90, 100, 0, 0, 0, false, false, false, false⟩], []⟩
      [] 2 id).1.err = some .noEnoughWritableHosts ∧
    (RoundRobinSelect .DataNodeDisk 5
      ⟨[⟨1, "a", 100, 100, 0, 0, 0, true, true, true, true⟩,
        ⟨2, "b", 90, 100, 0, 0, 0, false, false, false, false⟩], []⟩
      [] 2 id).2 = 5 :=
  ⟨by decide, c10_roundrobin_error_cursor_unchanged _ 5 _ [] 2 id (by decide)⟩

/-- C6 as stated is false: on the not-enough-writable-hosts error path the
cursor does not advance although nodes were examined.  Concretely, with
two data nodes of which one is writable and `N = 2`, the call examines
both nodes (`nodeIndex = 2`) but returns with the cursor still `5`. -/
theorem c6_counterexample :
    ¬ ((RoundRobinSelect .DataNodeDisk 5
          ⟨[⟨1, "a", 100, 100, 0, 0, 0, true, true, true, true⟩,
            ⟨2, "b", 90, 100, 0, 0, 0, false, false, false, false⟩], []⟩
          [] 2 id).2 =
        5 + (selectorScan .DataNodeDisk []
          (rrRotated .DataNodeDisk 5
            ⟨[⟨1, "a", 100, 100, 0, 0, 0, true, true, true, true⟩,
              ⟨2, "b", 90, 100, 0, 0, 0, false, false, false, false⟩], []⟩) 2).2) := by
  decide

/-- C6 (amended): after a successful `RoundRobinNodeSelector.Select` call
the cursor equals the cursor before plus the number of nodes examined
during that call (not the number accepted); after a failed call the
cursor is unchanged even though nodes were examined. -/
theorem c6_roundrobin_cursor_advance (t : NodeResourceType) (idx : Nat)
    (ns : nodeSet) (excl : List String) (rn : Nat) (sh : List String → List String) :
    ((RoundRobinSelect t idx ns excl rn sh).1.err = none →
      (RoundRobinSelect t idx ns excl rn sh).2 =
        idx + (selectorScan t excl (rrRotated t idx ns) rn).2)
    ∧ ((RoundRobinSelect t idx ns excl rn sh).1.err ≠ none →
      (RoundRobinSelect t idx ns excl rn sh).2 = idx) :=
  rr_cursor_spec t idx ns excl rn sh

/-- Witness for C6: a successful call on three writable nodes with `N = 2`
examines two nodes and moves the cursor from `0` to `0 + 2`. -/
theorem c6_witness :
    (RoundRobinSelect .DataNodeDisk 0
      ⟨[⟨1, "a", 100, 100, 0, 0, 0, true, true, true, true⟩,
        ⟨3, "c", 80, 100, 0, 0, 0, true, true, true, true⟩,
        ⟨4, "d", 70, 100, 0, 0, 0, true, true, true, true⟩], []⟩
      [] 2 id).1.err = none ∧
    (RoundRobinSelect .DataNodeDisk 0
      ⟨[⟨1, "a", 100, 100, 0, 0, 0, true, true, true, true⟩,
        ⟨3, "c", 80, 100, 0, 0, 0, true, true, true, true⟩,
        ⟨4, "d", 70, 100, 0, 0, 0, true, true, true, true⟩], []⟩
      [] 2 id).2 =
      0 + (selectorScan .DataNodeDisk []
        (rrRotated .DataNodeDisk 0
          ⟨[⟨1, "a", 100, 100, 0, 0, 0, true, true, true, true⟩,
            ⟨3, "c", 80, 100, 0, 0, 0, true, true, true, true⟩,
            ⟨4, "d", 70, 100, 0, 0, 0, true, true, true, true⟩], []⟩) 2).2 :=
  ⟨by decide, (c6_roundrobin_cursor_advance .DataNodeDisk 0 _ [] 2 id).1 (by decide)⟩

/-- C3 as stated is false: the Straw selector has no `N = 0` early
return.  It reaches `reshuffleHosts` with an empty picked list and
returns an error; concretely on an empty node set with `N = 0` the call
errors instead of succeeding with empty lists. -/
theorem c3_counterexample :
    (StrawSelect .DataNodeDisk (fun _ _ => 0) ⟨[], []⟩ [] 0 id).err ≠ none := by
  have h : StrawSelect .DataNodeDisk (fun _ _ => 0) ⟨[], []⟩ [] 0 id =
      ⟨[], [], some .reshuffleFailed, []⟩ := by
    simp only [StrawSelect, nodeSet.getNodes, List.filter_nil, strawLoop_nil,
      List.map_nil, List.length_nil]
    rfl
  rw [h]
  simp

/-- C3 (amended): with `N = 0`, RoundRobin, AvailableSpaceFirst and
CarryWeight return empty host and peer lists and no error, for every
node set and excluded list; Straw instead always reaches
`reshuffleHosts` on an empty picked list and returns the reshuffle error
(with empty host and peer lists). -/
theorem c3_zero_replica (t : NodeResourceType) (ns : nodeSet) (excl : List String)
    (sh : List String → List String) :
    (∀ idx, RoundRobinSelect t idx ns excl 0 sh = (⟨[], [], none, []⟩, idx))
    ∧ AvailableSpaceFirstSelect t ns excl 0 sh = ⟨[], [], none, []⟩
    ∧ (∀ m fuel, ∃ m1,
        CarryWeightSelect t m ns excl 0 sh fuel = some (⟨[], [], none, []⟩, m1))
    ∧ (∀ straws, StrawSelect t straws ns excl 0 sh =
        ⟨[], [], some .reshuffleFailed, []⟩) := by
  refine ⟨?_, ?_, ?_, ?_⟩
  · intro idx
    simp [RoundRobinSelect]
  · simp [AvailableSpaceFirstSelect]
  · intro m fuel
    exact ⟨prepareCarry t (ns.getNodes t) (getTotalMax t (ns.getNodes t)) m,
      by simp [CarryWeightSelect]⟩
  · intro straws
    have hs := strawLoop_stop t straws 0
      ((ns.getNodes t).filter fun n => !(contains excl n.Addr)) [] 0 (by omega)
    simp only [StrawSelect, hs, List.map_nil, List.length_nil]
    rfl

/-- C5 as stated is false: the recount of the advancement loop uses the
strict threshold `carry > 1.0`, not `carry ≥ 1.0`.  Concretely, a single
entry with carry `1/2` and weight `1/2` lands exactly on `1.0` after one
pass: the recount reports `0` while the number of entries with carry
`≥ 1.0` is `1`. -/
theorem c5_counterexample :
    ¬ ((advanceAll []
          [⟨1/2, 1/2, ⟨1, "a", 0, 0, 0, 0, 0, true, true, true, true⟩⟩]).2.2 =
        ((advanceAll []
          [⟨1/2, 1/2, ⟨1, "a", 0, 0, 0, 0, 0, true, true, true, true⟩⟩]).2.1.filter
            (fun nt => decide (1 ≤ nt.Carry))).length) := by
  have h : ((1 : ℚ)/2 + 1/2) = 1 := by norm_num
  simp only [advanceAll, advanceEntry, h]
  norm_num [List.filter]

/-- C5 (amended): `availCount` equals the number of candidate entries
whose carry is `≥ 1.0` in the initial count taken while building the
weighted-node list (both for data and for meta nodes), but each recount
performed during the advancement loop uses the strict threshold
`carry > 1.0`. -/
theorem c5_avail_count_thresholds :
    (∀ (m : CarryMap) (maxTotal : Nat) (excl : List String) (l : List NodeData),
      (getCarryDataNodes m maxTotal excl l).2 =
        ((getCarryDataNodes m maxTotal excl l).1.filter
          (fun nt => decide (1 ≤ nt.Carry))).length)
    ∧ (∀ (t : NodeResourceType) (m : CarryMap) (maxTotal : Nat)
        (excl : List String) (l : List NodeData),
      (getCarryMetaNodes t m maxTotal excl l).2 =
        ((getCarryMetaNodes t m maxTotal excl l).1.filter
          (fun nt => decide (1 ≤ nt.Carry))).length)
    ∧ (∀ (m : CarryMap) (l : List weightedNode),
      (advanceAll m l).2.2 =
        ((advanceAll m l).2.1.filter (fun nt => decide (1 < nt.Carry))).length) := by
  refine ⟨?_, ?_, ?_⟩
  · intro m mt excl l
    exact getCarryDataNodes_count m mt excl l
  · intro t m mt excl l
    exact getCarryMetaNodes_count t m mt excl l
  · intro m l
    rw [advanceAll_count, advanceAll_nodes]

/-- C9: every value written into the carry map by a pass of the
advancement loop is capped at 10.0 (any entry of the post-pass map is
either an untouched entry of the old map or at most 10), and provided
every entry of the carry map is at most 10.0 beforehand (carries are
seeded in `[0, 1]` and only drained by pick decrements), no entry of the
carry map exceeds 10.0 after the advancement loop finishes. -/
theorem c9_carry_ceiling (fuel : Nat) (m : CarryMap) (nodes : List weightedNode)
    (avail rn : Nat) (hm : ∀ p ∈ m, p.2 ≤ 10) :
    (∀ p ∈ (advanceAll m nodes).1, p.2 ≤ 10 ∨ p ∈ m)
    ∧ (∀ m2 l2, setNodeCarry fuel m nodes avail rn = some (m2, l2) →
        ∀ p ∈ m2, p.2 ≤ 10) := by
  constructor
  · intro p hp
    rcases advanceAll_map_mem m nodes p hp with h | h
    · exact Or.inr h
    · exact Or.inl h
  · intro m2 l2 h
    exact setNodeCarry_entries_le fuel m nodes avail rn m2 l2 hm h

/-- Witness for C9 at a concrete carry map. -/
theorem c9_witness :
    (∀ p ∈ [((1 : Nat), (5 : ℚ))], p.2 ≤ 10) ∧
    ((∀ p ∈ (advanceAll [((1 : Nat), (5 : ℚ))] ([] : List weightedNode)).1,
        p.2 ≤ 10 ∨ p ∈ [((1 : Nat), (5 : ℚ))])
      ∧ (∀ m2 l2, setNodeCarry 0 [((1 : Nat), (5 : ℚ))] [] 1 0 = some (m2, l2) →
          ∀ p ∈ m2, p.2 ≤ 10)) :=
  ⟨by norm_num, c9_carry_ceiling 0 [((1 : Nat), (5 : ℚ))] [] 1 0 (by norm_num)⟩

theorem setNodeCarry_zero_weight_none (node : NodeData) :
    ∀ (fuel : Nat) (m : CarryMap),
      setNodeCarry fuel m [⟨0, 0, node⟩] 0 1 = none := by
  intro fuel
  induction fuel with
  | zero =>
    intro m
    rw [setNodeCarry]
    rw [if_pos (by omega)]
  | succ f ih =>
    intro m
    rw [setNodeCarry]
    rw [if_pos (by omega)]
    have h1 : advanceEntry ⟨0, 0, node⟩ = ⟨0, 0, node⟩ := by
      unfold advanceEntry
      norm_num
    have h2 : advanceAll m [⟨0, 0, node⟩] =
        (carryUpdate m node.ID 0, [(⟨0, 0, node⟩ : weightedNode)], 0) := by
      simp only [advanceAll, h1]
      norm_num
    rw [h2]
    exact ih _

/-- C4 as stated is false: the CarryWeight advancement loop need not
terminate on an input that passes the `|list| ≥ N` candidate check.
Concretely a single candidate with carry `0` and weight `0` (a writable
node with zero free capacity) passes the check for `N = 1`, yet no number
of passes ever reaches the bound: every fuel value yields `none`. -/
theorem c4_counterexample :
    1 ≤ ([⟨0, 0, ⟨1, "a", 0, 1, 0, 0, 0, true, true, true, true⟩⟩] :
        List weightedNode).length ∧
    ¬ ∃ (fuel : Nat) (out : CarryMap × List weightedNode),
        setNodeCarry fuel []
          [⟨0, 0, ⟨1, "a", 0, 1, 0, 0, 0, true, true, true, true⟩⟩] 0 1 = some out := by
  refine ⟨by simp, ?_⟩
  rintro ⟨fuel, out, hout⟩
  rw [setNodeCarry_zero_weight_none _ fuel []] at hout
  exact absurd hout (by simp)

/-- C4 (amended): the CarryWeight advancement loop terminates for every
input passing the `|list| ≥ N` candidate check in which every entry has
positive weight: some number of full passes pushes every carry above 1.0,
after which the loop's guard fails.  (The other three selectors are total
functions of their inputs.) -/
theorem c4_carry_advancement_terminates (m : CarryMap) (nodes : List weightedNode)
    (avail rn : Nat) (hw : ∀ n ∈ nodes, 0 < n.Weight) (hlen : rn ≤ nodes.length) :
    ∃ (fuel : Nat) (out : CarryMap × List weightedNode),
      setNodeCarry fuel m nodes avail rn = some out := by
  obtain ⟨K, hK⟩ := exists_pass_all_above nodes hw
  refine ⟨K + 1, ?_⟩
  rcases ho : setNodeCarry (K + 1) m nodes avail rn with _ | out
  · exfalso
    rcases setNodeCarry_none (K + 1) m nodes avail rn ho with ⟨hf, _⟩ | hlt
    · exact Nat.succ_ne_zero K hf
    · rw [map_iterate] at hlt
      have hall : ∀ x ∈ nodes.map (advanceEntry^[K + 1]),
          (fun nt => decide (1 < nt.Carry)) x = true := by
        intro x hx
        obtain ⟨n, hn, rfl⟩ := List.mem_map.mp hx
        simpa using hK n hn
      rw [List.filter_eq_self.mpr hall, List.length_map] at hlt
      omega
  · exact ⟨out, rfl⟩

/-- Witness for C4 at a concrete positive-weight candidate list. -/
theorem c4_witness :
    (∀ n ∈ ([⟨0, 1, ⟨1, "a", 1, 1, 0, 0, 0, true, true, true, true⟩⟩] :
        List weightedNode), 0 < n.Weight) ∧
    1 ≤ ([⟨0, 1, ⟨1, "a", 1, 1, 0, 0, 0, true, true, true, true⟩⟩] :
        List weightedNode).length ∧
    ∃ (fuel : Nat) (out : CarryMap × List weightedNode),
      setNodeCarry fuel []
        [⟨0, 1, ⟨1, "a", 1, 1, 0, 0, 0, true, true, true, true⟩⟩] 0 1 = some out :=
  ⟨by simp, by simp,
    c4_carry_advancement_terminates [] _ 0 1 (by simp) (by simp)⟩

theorem nodup_map_of_sublist_perm {α β : Type} (f : α → β) {l₁ l₂ l₃ : List α}
    (hs : List.Sublist l₁ l₂) (hp : List.Perm l₂ l₃) (hd : (l₃.map f).Nodup) :
    (l₁.map f).Nodup :=
  ((hp.map f).nodup_iff.mpr hd).sublist (hs.map f)

/-- C1 as stated is false: AvailableSpaceFirst (like RoundRobin and
Straw) invokes the `SelectNodeForWrite` hook while scanning, before the
shortfall check runs.  Concretely, with two data nodes of which only the
first is writable and `N = 2`, the call returns the
not-enough-writable-hosts error yet node 1 has been charged once. -/
theorem c1_counterexample :
    (AvailableSpaceFirstSelect .DataNodeDisk
      ⟨[⟨1, "a", 100, 100, 0, 0, 0, true, true, true, true⟩,
        ⟨2, "b", 90, 100, 0, 0, 0, false, false, false, false⟩], []⟩
      [] 2 id).err ≠ none ∧
    (AvailableSpaceFirstSelect .DataNodeDisk
      ⟨[⟨1, "a", 100, 100, 0, 0, 0, true, true, true, true⟩,
        ⟨2, "b", 90, 100, 0, 0, 0, false, false, false, false⟩], []⟩
      [] 2 id).charged = [1] := by
  constructor
  · decide
  · decide

/-- C1 (amended): a successful Select invokes `selectedForWrite` on
exactly `N` distinct nodes, once each, for every policy.  On the error
path CarryWeight charges no node; AvailableSpaceFirst and RoundRobin
have charged the nodes accepted before the shortfall was detected —
fewer than `N` — and Straw likewise (or exactly none when its `N = 0`
reshuffle error fires). -/
theorem c1_charging (t : NodeResourceType) (ns : nodeSet) (excl : List String)
    (rn : Nat) (sh : List String → List String)
    (hids : ((ns.getNodes t).map NodeData.ID).Nodup) :
    (((AvailableSpaceFirstSelect t ns excl rn sh).err = none →
        (AvailableSpaceFirstSelect t ns excl rn sh).charged.length = rn ∧
        (AvailableSpaceFirstSelect t ns excl rn sh).charged.Nodup)
      ∧ ((AvailableSpaceFirstSelect t ns excl rn sh).err ≠ none →
        (AvailableSpaceFirstSelect t ns excl rn sh).charged.length < rn))
    ∧ (∀ idx,
        ((RoundRobinSelect t idx ns excl rn sh).1.err = none →
          (RoundRobinSelect t idx ns excl rn sh).1.charged.length = rn ∧
          (RoundRobinSelect t idx ns excl rn sh).1.charged.Nodup)
        ∧ ((RoundRobinSelect t idx ns excl rn sh).1.err ≠ none →
          (RoundRobinSelect t idx ns excl rn sh).1.charged.length < rn))
    ∧ (∀ m fuel out m2, CarryWeightSelect t m ns excl rn sh fuel = some (out, m2) →
        (out.err = none → out.charged.length = rn ∧ out.charged.Nodup)
        ∧ (out.err ≠ none → out.charged = []))
    ∧ (∀ straws,
        ((StrawSelect t straws ns excl rn sh).err = none →
          (StrawSelect t straws ns excl rn sh).charged.length = rn ∧
          (StrawSelect t straws ns excl rn sh).charged.Nodup)
        ∧ ((StrawSelect t straws ns excl rn sh).err ≠ none →
          (StrawSelect t straws ns excl rn sh).charged.length < rn ∨
          (StrawSelect t straws ns excl rn sh).charged = [])) := by
  refine ⟨?_, ?_, ?_, ?_⟩
  · obtain ⟨picked, hsub, hch, hle, hsucc, herr, -⟩ := asf_out t ns excl rn sh
    constructor
    · intro he
      refine ⟨?_, ?_⟩
      · rw [hch, List.length_map]
        exact (hsucc he).1
      · rw [hch]
        exact nodup_map_of_sublist_perm NodeData.ID
          (hsub.trans (List.filter_sublist _)) (asfSortedNodes_perm t ns) hids
    · intro he
      rw [hch, List.length_map]
      exact (herr he).1
  · intro idx
    obtain ⟨picked, hsub, hch, hle, hsucc, herr, -⟩ := rr_out t idx ns excl rn sh
    have hperm : List.Perm (rrRotated t idx ns) (ns.getNodes t) := by
      rw [rrRotated_eq_rotate]
      exact (List.rotate_perm _ _).trans (rrSortedNodes_perm t ns)
    constructor
    · intro he
      refine ⟨?_, ?_⟩
      · rw [hch, List.length_map]
        exact (hsucc he).1
      · rw [hch]
        exact nodup_map_of_sublist_perm NodeData.ID
          (hsub.trans (List.filter_sublist _)) hperm hids
    · intro he
      rw [hch, List.length_map]
      exact (herr he).1
  · intro m fuel out m2 hcw
    obtain ⟨picked, hsub, hexcl, hch, hsucc, herr⟩ := cw_out t m ns excl rn sh fuel out m2 hcw
    constructor
    · intro he
      refine ⟨?_, ?_⟩
      · rw [hch, List.length_map]
        exact (hsucc he).1
      · have hch2 : out.charged = (picked.map weightedNode.Ptr).map NodeData.ID := by
          rw [hch, List.map_map]
          rfl
        rw [hch2]
        exact nodup_of_subperm (subperm_map NodeData.ID hsub) hids
    · intro he
      rw [hch, (herr he).1]
      rfl
  · intro straws
    obtain ⟨picked, hsub, hch, hle, hsucc, herr⟩ := straw_out t straws ns excl rn sh
    have hfil : (((ns.getNodes t).filter
        (fun n => !(contains excl n.Addr))).map NodeData.ID).Nodup :=
      hids.sublist ((List.filter_sublist _).map NodeData.ID)
    constructor
    · intro he
      refine ⟨?_, ?_⟩
      · rw [hch, List.length_map]
        exact (hsucc he).1
      · rw [hch]
        exact nodup_of_subperm (subperm_map NodeData.ID hsub) hfil
    · intro he
      rcases (herr he).1 with h | h
      · left
        rw [hch, List.length_map]
        exact h
      · right
        rw [hch, h]
        rfl

theorem acceptNode_contains_false {t : NodeResourceType} {excl : List String}
    {n : NodeData} (h : acceptNode t excl n = true) :
    contains excl n.Addr = false := by
  have h2 := (Bool.and_eq_true _ _).mp h
  simpa using h2.2

/-- C2: for every selector policy, a Select call that returns without
error returns a host list of length exactly `N` whose addresses are
pairwise distinct and disjoint from the excluded list; a successful call
never returns a short list. -/
theorem c2_success_hosts (t : NodeResourceType) (ns : nodeSet) (excl : List String)
    (rn : Nat) (sh : List String → List String)
    (hsh : ∀ l, List.Perm (sh l) l)
    (haddr : ((ns.getNodes t).map NodeData.Addr).Nodup) :
    (((AvailableSpaceFirstSelect t ns excl rn sh).err = none →
        (AvailableSpaceFirstSelect t ns excl rn sh).newHosts.length = rn ∧
        (AvailableSpaceFirstSelect t ns excl rn sh).newHosts.Nodup ∧
        ∀ a ∈ (AvailableSpaceFirstSelect t ns excl rn sh).newHosts,
          contains excl a = false))
    ∧ (∀ idx, (RoundRobinSelect t idx ns excl rn sh).1.err = none →
        (RoundRobinSelect t idx ns excl rn sh).1.newHosts.length = rn ∧
        (RoundRobinSelect t idx ns excl rn sh).1.newHosts.Nodup ∧
        ∀ a ∈ (RoundRobinSelect t idx ns excl rn sh).1.newHosts,
          contains excl a = false)
    ∧ (∀ m fuel out m2, CarryWeightSelect t m ns excl rn sh fuel = some (out, m2) →
        out.err = none →
        out.newHosts.length = rn ∧ out.newHosts.Nodup ∧
        ∀ a ∈ out.newHosts, contains excl a = false)
    ∧ (∀ straws, (StrawSelect t straws ns excl rn sh).err = none →
        (StrawSelect t straws ns excl rn sh).newHosts.length = rn ∧
        (StrawSelect t straws ns excl rn sh).newHosts.Nodup ∧
        ∀ a ∈ (StrawSelect t straws ns excl rn sh).newHosts,
          contains excl a = false) := by
  refine ⟨?_, ?_, ?_, ?_⟩
  · obtain ⟨picked, hsub, hch, hle, hsucc, herr, -⟩ := asf_out t ns excl rn sh
    intro he
    obtain ⟨hlen, hpm⟩ := hsucc he
    have hp := hpm hsh
    have hnd : (picked.map (fun n => n.Addr)).Nodup :=
      nodup_map_of_sublist_perm _ (hsub.trans (List.filter_sublist _))
        (asfSortedNodes_perm t ns) haddr
    refine ⟨by rw [hp.length_eq, List.length_map, hlen], hp.nodup_iff.mpr hnd, ?_⟩
    intro a ha
    obtain ⟨n, hn, rfl⟩ := List.mem_map.mp (hp.mem_iff.mp ha)
    exact acceptNode_contains_false (List.of_mem_filter (hsub.subset hn))
  · intro idx
    obtain ⟨picked, hsub, hch, hle, hsucc, herr, -⟩ := rr_out t idx ns excl rn sh
    intro he
    obtain ⟨hlen, hpm⟩ := hsucc he
    have hp := hpm hsh
    have hperm : List.Perm (rrRotated t idx ns) (ns.getNodes t) := by
      rw [rrRotated_eq_rotate]
      exact (List.rotate_perm _ _).trans (rrSortedNodes_perm t ns)
    have hnd : (picked.map (fun n => n.Addr)).Nodup :=
      nodup_map_of_sublist_perm _ (hsub.trans (List.filter_sublist _)) hperm haddr
    refine ⟨by rw [hp.length_eq, List.length_map, hlen], hp.nodup_iff.mpr hnd, ?_⟩
    intro a ha
    obtain ⟨n, hn, rfl⟩ := List.mem_map.mp (hp.mem_iff.mp ha)
    exact acceptNode_contains_false (List.of_mem_filter (hsub.subset hn))
  · intro m fuel out m2 hcw he
    obtain ⟨picked, hsub, hexcl, hch, hsucc, herr⟩ := cw_out t m ns excl rn sh fuel out m2 hcw
    obtain ⟨hlen, hpm⟩ := hsucc he
    have hp := hpm hsh
    have hmm : picked.map (fun wn => wn.Ptr.Addr) =
        (picked.map weightedNode.Ptr).map NodeData.Addr := by
      rw [List.map_map]
      rfl
    have hnd : (picked.map (fun wn => wn.Ptr.Addr)).Nodup := by
      rw [hmm]
      exact nodup_of_subperm (subperm_map NodeData.Addr hsub) haddr
    refine ⟨by rw [hp.length_eq, List.length_map, hlen], hp.nodup_iff.mpr hnd, ?_⟩
    intro a ha
    obtain ⟨wn, hwn, rfl⟩ := List.mem_map.mp (hp.mem_iff.mp ha)
    exact hexcl wn hwn
  · intro straws
    obtain ⟨picked, hsub, hch, hle, hsucc, herr⟩ := straw_out t straws ns excl rn sh
    intro he
    obtain ⟨hlen, hpm⟩ := hsucc he
    have hp := hpm hsh
    have hfil : (((ns.getNodes t).filter
        (fun n => !(contains excl n.Addr))).map NodeData.Addr).Nodup :=
      haddr.sublist ((List.filter_sublist _).map NodeData.Addr)
    have hnd : (picked.map (fun n => n.Addr)).Nodup :=
      nodup_of_subperm (subperm_map NodeData.Addr hsub) hfil
    refine ⟨by rw [hp.length_eq, List.length_map, hlen], hp.nodup_iff.mpr hnd, ?_⟩
    intro a ha
    obtain ⟨n, hn, rfl⟩ := List.mem_map.mp (hp.mem_iff.mp ha)
    have hn2 := hsub.subset hn
    simpa using List.of_mem_filter hn2

/-- Witness for C1 at a concrete successful call. -/
theorem c1_witness :
    (AvailableSpaceFirstSelect .DataNodeDisk
      ⟨[⟨1, "a", 100, 100, 0, 0, 0, true, true, true, true⟩], []⟩
      [] 1 id).charged.length = 1 ∧
    (AvailableSpaceFirstSelect .DataNodeDisk
      ⟨[⟨1, "a", 100, 100, 0, 0, 0, true, true, true, true⟩], []⟩
      [] 1 id).charged.Nodup :=
  (c1_charging .DataNodeDisk
    ⟨[⟨1, "a", 100, 100, 0, 0, 0, true, true, true, true⟩], []⟩
    [] 1 id (by decide)).1.1 (by decide)

/-- Witness for C2 at a concrete successful call. -/
theorem c2_witness :
    (AvailableSpaceFirstSelect .DataNodeDisk
      ⟨[⟨1, "a", 100, 100, 0, 0, 0, true, true, true, true⟩], []⟩
      [] 1 id).newHosts.length = 1 ∧
    (AvailableSpaceFirstSelect .DataNodeDisk
      ⟨[⟨1, "a", 100, 100, 0, 0, 0, true, true, true, true⟩], []⟩
      [] 1 id).newHosts.Nodup ∧
    ∀ a ∈ (AvailableSpaceFirstSelect .DataNodeDisk
      ⟨[⟨1, "a", 100, 100, 0, 0, 0, true, true, true, true⟩], []⟩
      [] 1 id).newHosts, contains [] a = false :=
  (c2_success_hosts .DataNodeDisk
    ⟨[⟨1, "a", 100, 100, 0, 0, 0, true, true, true, true⟩], []⟩
    [] 1 id (fun l => List.Perm.refl l) (by decide)).1 (by decide)

/-- C8: for every successful AvailableSpaceFirst call the returned host
set equals the top-`N` by available space among writable, non-excluded
nodes, up to ties: the call returns exactly `N` hosts, every returned
host is the address of a writable, non-excluded node of the node set,
and every writable, non-excluded node left out has available space at
most that of every node returned. -/
theorem c8_asf_greedy (t : NodeResourceType) (ns : nodeSet) (excl : List String)
    (rn : Nat) (sh : List String → List String)
    (hsh : ∀ l, List.Perm (sh l) l)
    (haddr : ((ns.getNodes t).map NodeData.Addr).Nodup)
    (he : (AvailableSpaceFirstSelect t ns excl rn sh).err = none) :
    (AvailableSpaceFirstSelect t ns excl rn sh).newHosts.length = rn ∧
    (∀ a ∈ (AvailableSpaceFirstSelect t ns excl rn sh).newHosts,
      ∃ p ∈ ns.getNodes t, p.Addr = a ∧ canAllocPartition p t = true ∧
        contains excl p.Addr = false) ∧
    ∀ p ∈ ns.getNodes t, ∀ q ∈ ns.getNodes t,
      p.Addr ∈ (AvailableSpaceFirstSelect t ns excl rn sh).newHosts →
      q.Addr ∉ (AvailableSpaceFirstSelect t ns excl rn sh).newHosts →
      canAllocPartition q t = true → contains excl q.Addr = false →
      getNodeAvailableSpace t q ≤ getNodeAvailableSpace t p := by
  obtain ⟨picked, hsub, hch, hle, hsucc, herr, hid⟩ := asf_out t ns excl rn sh
  obtain ⟨hlen, hpm⟩ := hsucc he
  have hp := hpm hsh
  refine ⟨by rw [hp.length_eq, List.length_map, hlen], ?_, ?_⟩
  · intro a ha
    obtain ⟨n, hn, hna⟩ := List.mem_map.mp (hp.mem_iff.mp ha)
    have hnfil : n ∈ (asfSortedNodes t ns).filter (acceptNode t excl) :=
      hsub.subset hn
    have hnacc : acceptNode t excl n = true := List.of_mem_filter hnfil
    have hnmem : n ∈ ns.getNodes t :=
      (asfSortedNodes_perm t ns).mem_iff.mp (List.mem_of_mem_filter hnfil)
    exact ⟨n, hnmem, hna, ((Bool.and_eq_true _ _).mp hnacc).1,
      acceptNode_contains_false hnacc⟩
  intro p hpmem q hqmem hpin hqout hqw hqc
  rcases eq_or_ne rn 0 with h0 | h0
  · exfalso
    have : picked = [] := List.length_eq_zero.mp (h0 ▸ hlen)
    rw [this] at hp
    simp only [List.map_nil] at hp
    exact absurd (hp.mem_iff.mp hpin) (List.not_mem_nil _)
  · have hpick := hid he h0
    have hq : acceptNode t excl q = true := by
      simp [acceptNode, hqw, hqc]
    have hqsorted : q ∈ asfSortedNodes t ns := (asfSortedNodes_perm t ns).mem_iff.mpr hqmem
    have hqfil : q ∈ (asfSortedNodes t ns).filter (acceptNode t excl) :=
      List.mem_filter.mpr ⟨hqsorted, hq⟩
    have hqtake : q ∉ picked := by
      intro hqin
      exact hqout (hp.mem_iff.mpr (List.mem_map_of_mem (fun n => n.Addr) hqin))
    have hqdrop : q ∈ ((asfSortedNodes t ns).filter (acceptNode t excl)).drop rn := by
      have := (List.take_append_drop rn
        ((asfSortedNodes t ns).filter (acceptNode t excl))) ▸ hqfil
      rcases List.mem_append.mp this with h | h
      · exact absurd (hpick ▸ h) hqtake
      · exact h
    obtain ⟨p2, hp2, hp2a⟩ := List.mem_map.mp (hp.mem_iff.mp hpin)
    have hp2fil : p2 ∈ (asfSortedNodes t ns).filter (acceptNode t excl) :=
      hsub.subset hp2
    have hp2mem : p2 ∈ ns.getNodes t :=
      (asfSortedNodes_perm t ns).mem_iff.mp
        (List.mem_of_mem_filter hp2fil)
    have hpp2 : p2 = p := List.inj_on_of_nodup_map haddr hp2mem hpmem hp2a
    have hsorted : List.Pairwise
        (fun a b => getNodeAvailableSpace t b ≤ getNodeAvailableSpace t a)
        (asfSortedNodes t ns) := by
      haveI : IsTotal NodeData
          (fun a b => getNodeAvailableSpace t b ≤ getNodeAvailableSpace t a) :=
        ⟨fun a b => le_total _ _⟩
      haveI : IsTrans NodeData
          (fun a b => getNodeAvailableSpace t b ≤ getNodeAvailableSpace t a) :=
        ⟨fun a b c hab hbc => le_trans hbc hab⟩
      exact List.sorted_insertionSort _ _
    have hpair : List.Pairwise
        (fun a b => getNodeAvailableSpace t b ≤ getNodeAvailableSpace t a)
        ((asfSortedNodes t ns).filter (acceptNode t excl)) :=
      List.Pairwise.sublist (List.filter_sublist _) hsorted
    have hsplit := List.pairwise_append.mp
      ((List.take_append_drop rn
        ((asfSortedNodes t ns).filter (acceptNode t excl))).symm ▸ hpair)
    have := hsplit.2.2 p2 (hpick ▸ hp2) q hqdrop
    rw [hpp2] at this
    exact this

/-- Witness for C8 at a concrete call: three nodes with spaces
`100 > 90 > 80`, `N = 2`. -/
theorem c8_witness :
    (AvailableSpaceFirstSelect .DataNodeDisk
      ⟨[⟨1, "a", 100, 100, 0, 0, 0, true, true, true, true⟩,
        ⟨2, "b", 90, 100, 0, 0, 0, true, true, true, true⟩,
        ⟨3, "c", 80, 100, 0, 0, 0, true, true, true, true⟩], []⟩
      [] 2 id).newHosts.length = 2 ∧
    (∀ a ∈ (AvailableSpaceFirstSelect .DataNodeDisk
        ⟨[⟨1, "a", 100, 100, 0, 0, 0, true, true, true, true⟩,
          ⟨2, "b", 90, 100, 0, 0, 0, true, true, true, true⟩,
          ⟨3, "c", 80, 100, 0, 0, 0, true, true, true, true⟩], []⟩
        [] 2 id).newHosts,
      ∃ p ∈ (⟨[⟨1, "a", 100, 100, 0, 0, 0, true, true, true, true⟩,
          ⟨2, "b", 90, 100, 0, 0, 0, true, true, true, true⟩,
          ⟨3, "c", 80, 100, 0, 0, 0, true, true, true, true⟩], []⟩ : nodeSet).getNodes
            .DataNodeDisk,
        p.Addr = a ∧ canAllocPartition p .DataNodeDisk = true ∧
        contains [] p.Addr = false) ∧
    ∀ p ∈ (⟨[⟨1, "a", 100, 100, 0, 0, 0, true, true, true, true⟩,
        ⟨2, "b", 90, 100, 0, 0, 0, true, true, true, true⟩,
        ⟨3, "c", 80, 100, 0, 0, 0, true, true, true, true⟩], []⟩ : nodeSet).getNodes .DataNodeDisk,
      ∀ q ∈ (⟨[⟨1, "a", 100, 100, 0, 0, 0, true, true, true, true⟩,
        ⟨2, "b", 90, 100, 0, 0, 0, true, true, true, true⟩,
        ⟨3, "c", 80, 100, 0, 0, 0, true, true, true, true⟩], []⟩ : nodeSet).getNodes .DataNodeDisk,
      p.Addr ∈ (AvailableSpaceFirstSelect .DataNodeDisk
        ⟨[⟨1, "a", 100, 100, 0, 0, 0, true, true, true, true⟩,
          ⟨2, "b", 90, 100, 0, 0, 0, true, true, true, true⟩,
          ⟨3, "c", 80, 100, 0, 0, 0, true, true, true, true⟩], []⟩
        [] 2 id).newHosts →
      q.Addr ∉ (AvailableSpaceFirstSelect .DataNodeDisk
        ⟨[⟨1, "a", 100, 100, 0, 0, 0, true, true, true, true⟩,
          ⟨2, "b", 90, 100, 0, 0, 0, true, true, true, true⟩,
          ⟨3, "c", 80, 100, 0, 0, 0, true, true, true, true⟩], []⟩
        [] 2 id).newHosts →
      canAllocPartition q .DataNodeDisk = true → contains [] q.Addr = false →
      getNodeAvailableSpace .DataNodeDisk q ≤ getNodeAvailableSpace .DataNodeDisk p :=
  c8_asf_greedy .DataNodeDisk
    ⟨[⟨1, "a", 100, 100, 0, 0, 0, true, true, true, true⟩,
      ⟨2, "b", 90, 100, 0, 0, 0, true, true, true, true⟩,
      ⟨3, "c", 80, 100, 0, 0, 0, true, true, true, true⟩], []⟩
    [] 2 id (fun l => List.Perm.refl l) (by decide) (by decide)

/-- On an all-writable node set with no exclusions, a RoundRobin call
returns precisely the next `replicaNum` nodes of the rotated id-sorted
snapshot and advances the cursor by exactly `replicaNum`. -/
theorem rr_all_writable (t : NodeResourceType) (idx : Nat) (ns : nodeSet)
    (rn : Nat) (sh : List String → List String)
    (hw : ∀ n ∈ ns.getNodes t, canAllocPartition n t = true)
    (hrn : rn ≠ 0) (hlen : rn ≤ (ns.getNodes t).length) :
    RoundRobinSelect t idx ns [] rn sh =
      (⟨sh ((((rrSortedNodes t ns).rotate idx).take rn).map (fun n => n.Addr)),
        (((rrSortedNodes t ns).rotate idx).take rn).map (fun n => Peer.mk n.ID n.Addr),
        none,
        (((rrSortedNodes t ns).rotate idx).take rn).map (fun n => n.ID)⟩,
       idx + rn) := by
  have hacc : ∀ n ∈ rrRotated t idx ns, acceptNode t [] n = true := by
    intro n hn
    rw [rrRotated_eq_rotate] at hn
    have hn2 : n ∈ ns.getNodes t :=
      (rrSortedNodes_perm t ns).mem_iff.mp ((List.rotate_perm _ _).mem_iff.mp hn)
    simp [acceptNode, hw n hn2, contains]
  have hscan := selectorScan_all_accept t [] (rrRotated t idx ns) rn hacc
  have hrotlen : (rrRotated t idx ns).length = (ns.getNodes t).length := by
    rw [rrRotated_eq_rotate, List.length_rotate]
    exact (rrSortedNodes_perm t ns).length_eq
  have hmin : min rn (rrRotated t idx ns).length = rn := by omega
  have hlen2 : ¬ (ns.getNodes t).length < rn := by omega
  have hplen : ((rrRotated t idx ns).take rn).length = rn := by
    rw [List.length_take]
    omega
  have hshort : ¬ (((rrRotated t idx ns).take rn).map (fun n => n.Addr)).length < rn := by
    rw [List.length_map, hplen]
    omega
  have hne : ((rrRotated t idx ns).take rn).map (fun n => n.Addr) ≠ [] := by
    intro he
    have h2 : (((rrRotated t idx ns).take rn).map (fun n => n.Addr)).length = 0 := by
      rw [he]
      rfl
    rw [List.length_map, hplen] at h2
    exact hrn h2
  simp only [RoundRobinSelect, if_neg hrn, if_neg hlen2, hscan, hmin, if_neg hshort,
    reshuffleHosts_of_ne_nil sh hne]
  rw [← rrRotated_eq_rotate]

/-- Concrete node set refuting C7 as stated: four data nodes of which
only node 1 ("a") is writable. -/
def c7cexNodeSet : nodeSet :=
  ⟨[⟨1, "a", 100, 100, 0, 0, 0, true, true, true, true⟩,
    ⟨2, "b", 90, 100, 0, 0, 0, false, false, false, false⟩,
    ⟨3, "c", 80, 100, 0, 0, 0, false, false, false, false⟩,
    ⟨4, "d", 70, 100, 0, 0, 0, false, false, false, false⟩], []⟩

/-- C7 as stated is false: with `|S| = 4 ≥ 2N = 2` but three unwritable
nodes, two consecutive successful RoundRobin calls with no exclusions
both return host "a" — the second call wraps past the unwritable nodes
back into the first call's window. -/
theorem c7_counterexample :
    2 * 1 ≤ (c7cexNodeSet.getNodes .DataNodeDisk).length ∧
    (RoundRobinSelect .DataNodeDisk 0 c7cexNodeSet [] 1 id).1.err = none ∧
    (RoundRobinSelect .DataNodeDisk
      (RoundRobinSelect .DataNodeDisk 0 c7cexNodeSet [] 1 id).2
      c7cexNodeSet [] 1 id).1.err = none ∧
    "a" ∈ (RoundRobinSelect .DataNodeDisk 0 c7cexNodeSet [] 1 id).1.newHosts ∧
    "a" ∈ (RoundRobinSelect .DataNodeDisk
      (RoundRobinSelect .DataNodeDisk 0 c7cexNodeSet [] 1 id).2
      c7cexNodeSet [] 1 id).1.newHosts := by
  decide

/-- C7 (amended): on a static node set in which every node is writable,
with `|S| ≥ 2N` and no exclusions, two consecutive RoundRobin calls both
succeed and return disjoint host sets.  (Without the writability
assumption the second call can wrap into the first call's window.) -/
theorem c7_roundrobin_disjoint (t : NodeResourceType) (ns : nodeSet) (idx rn : Nat)
    (sh1 sh2 : List String → List String)
    (hsh1 : ∀ l, List.Perm (sh1 l) l) (hsh2 : ∀ l, List.Perm (sh2 l) l)
    (haddr : ((ns.getNodes t).map NodeData.Addr).Nodup)
    (hw : ∀ n ∈ ns.getNodes t, canAllocPartition n t = true)
    (hsize : 2 * rn ≤ (ns.getNodes t).length) :
    (RoundRobinSelect t idx ns [] rn sh1).1.err = none ∧
    (RoundRobinSelect t (RoundRobinSelect t idx ns [] rn sh1).2 ns [] rn sh2).1.err = none ∧
    ∀ a ∈ (RoundRobinSelect t idx ns [] rn sh1).1.newHosts,
      a ∉ (RoundRobinSelect t (RoundRobinSelect t idx ns [] rn sh1).2
        ns [] rn sh2).1.newHosts := by
  rcases eq_or_ne rn 0 with h0 | h0
  · subst h0
    simp [RoundRobinSelect]
  · have hlen : rn ≤ (ns.getNodes t).length := by omega
    have h1 := rr_all_writable t idx ns rn sh1 hw h0 hlen
    have h2 := rr_all_writable t (idx + rn) ns rn sh2 hw h0 hlen
    have hLlen : ((rrSortedNodes t ns).rotate idx).length = (ns.getNodes t).length := by
      rw [List.length_rotate]
      exact (rrSortedNodes_perm t ns).length_eq
    have hrnle : rn ≤ ((rrSortedNodes t ns).rotate idx).length := by omega
    have hrot2 : (rrSortedNodes t ns).rotate (idx + rn) =
        ((rrSortedNodes t ns).rotate idx).rotate rn :=
      (List.rotate_rotate _ _ _).symm
    have hsplit : ((rrSortedNodes t ns).rotate idx).rotate rn =
        ((rrSortedNodes t ns).rotate idx).drop rn ++
          ((rrSortedNodes t ns).rotate idx).take rn :=
      List.rotate_eq_drop_append_take hrnle
    have hdroplen : rn ≤ (((rrSortedNodes t ns).rotate idx).drop rn).length := by
      rw [List.length_drop]
      omega
    have htake2 : ((rrSortedNodes t ns).rotate (idx + rn)).take rn =
        (((rrSortedNodes t ns).rotate idx).drop rn).take rn := by
      rw [hrot2, hsplit, List.take_append_eq_append_take,
        Nat.sub_eq_zero_of_le hdroplen, List.take_zero, List.append_nil]
    have hnodL : (((rrSortedNodes t ns).rotate idx).map NodeData.Addr).Nodup := by
      refine ((((List.rotate_perm _ _).trans (rrSortedNodes_perm t ns)).map
        NodeData.Addr).nodup_iff).mpr haddr
    have hdisj : ∀ a ∈ (((rrSortedNodes t ns).rotate idx).take rn).map NodeData.Addr,
        a ∉ (((rrSortedNodes t ns).rotate idx).drop rn).map NodeData.Addr := by
      have hsplitL : ((rrSortedNodes t ns).rotate idx).map NodeData.Addr =
          (((rrSortedNodes t ns).rotate idx).take rn).map NodeData.Addr ++
            (((rrSortedNodes t ns).rotate idx).drop rn).map NodeData.Addr := by
        rw [← List.map_append, List.take_append_drop]
      rw [hsplitL] at hnodL
      exact (List.nodup_append.mp hnodL).2.2
    refine ⟨by rw [h1], by rw [h1, h2], ?_⟩
    intro a ha hb
    rw [h1] at ha hb
    rw [h2] at hb
    have ha2 : a ∈ (((rrSortedNodes t ns).rotate idx).take rn).map
        (fun n => n.Addr) := (hsh1 _).mem_iff.mp ha
    have hb2 : a ∈ (((rrSortedNodes t ns).rotate (idx + rn)).take rn).map
        (fun n => n.Addr) := (hsh2 _).mem_iff.mp hb
    rw [htake2] at hb2
    have hb3 : a ∈ (((rrSortedNodes t ns).rotate idx).drop rn).map NodeData.Addr := by
      have hsubl : List.Sublist ((((rrSortedNodes t ns).rotate idx).drop rn).take rn)
          (((rrSortedNodes t ns).rotate idx).drop rn) := List.take_sublist _ _
      exact (hsubl.map NodeData.Addr).subset hb2
    exact hdisj a ha2 hb3

/-- Concrete all-writable node set for the C7 witness. -/
def c7wNodeSet : nodeSet :=
  ⟨[⟨1, "a", 100, 100, 0, 0, 0, true, true, true, true⟩,
    ⟨2, "b", 90, 100, 0, 0, 0, true, true, true, true⟩,
    ⟨3, "c", 80, 100, 0, 0, 0, true, true, true, true⟩,
    ⟨4, "d", 70, 100, 0, 0, 0, true, true, true, true⟩], []⟩

/-- Witness for C7: four writable nodes, `N = 2`, two consecutive calls. -/
theorem c7_witness :
    (RoundRobinSelect .DataNodeDisk 0 c7wNodeSet [] 2 id).1.err = none ∧
    (RoundRobinSelect .DataNodeDisk
      (RoundRobinSelect .DataNodeDisk 0 c7wNodeSet [] 2 id).2
      c7wNodeSet [] 2 id).1.err = none ∧
    ∀ a ∈ (RoundRobinSelect .DataNodeDisk 0 c7wNodeSet [] 2 id).1.newHosts,
      a ∉ (RoundRobinSelect .DataNodeDisk
        (RoundRobinSelect .DataNodeDisk 0 c7wNodeSet [] 2 id).2
        c7wNodeSet [] 2 id).1.newHosts :=
  c7_roundrobin_disjoint .DataNodeDisk c7wNodeSet 0 2 id id
    (fun l => List.Perm.refl l) (fun l => List.Perm.refl l)
    (by decide) (by decide) (by decide)
